import Mathlib

/-!
Verification of the retrieval-to-prompt orchestration pipeline of the
ims-btp-fd repository (backend/src/search.py), as a shallow embedding.

Python strings are modelled as lists of characters (`PyStr`); Python string
methods used by the code (strip, lower, split, endswith, substring tests)
are modelled on that representation, over the ASCII fragment the code
exercises.  Python runtime values that flow through the pipeline are
modelled by the inductive type `PyVal`; raised exceptions are modelled by
`Except PyStr`, carrying the stringified exception message, since the code
classifies failures by substring tests on such messages.
-/

/-- Python string model: a list of characters. -/
abbrev PyStr := List Char

/-- Whitespace characters recognised by str.strip and str.split. -/
def pyWS (c : Char) : Bool :=
  c = ' ' || c = '\t' || c = '\n' || c = '\r' || c = '\x0b' || c = '\x0c'

/-- Model of str.strip with no arguments: drop whitespace on both ends. -/
def pyStrip (s : PyStr) : PyStr :=
  ((s.dropWhile pyWS).reverse.dropWhile pyWS).reverse

/-- Model of str.lower on the ASCII fragment: map Char.toLower. -/
def pyLower (s : PyStr) : PyStr := s.map Char.toLower

/-- Accumulator-style worker for `pySplit`; `acc` holds the reversed
current token. -/
def pySplitAux : PyStr → PyStr → List PyStr
  | [], acc => if acc.isEmpty then [] else [acc.reverse]
  | c :: cs, acc =>
      if pyWS c then
        (if acc.isEmpty then pySplitAux cs [] else acc.reverse :: pySplitAux cs [])
      else pySplitAux cs (c :: acc)

/-- Model of str.split with no arguments: split on runs of whitespace,
producing no empty tokens. -/
def pySplit (s : PyStr) : List PyStr := pySplitAux s []

/-- Join a list of strings with a separator, as str.join does. -/
def joinSep (sep : PyStr) : List PyStr → PyStr
  | [] => []
  | [t] => t
  | t :: ts => t ++ sep ++ joinSep sep ts

/-- Model of the Python substring test `sub in hay`. -/
def pyContains (hay sub : PyStr) : Bool := decide (sub <:+: hay)

/-- Model of str.endswith with a single-character suffix. -/
def pyEndsWith (s : PyStr) (c : Char) : Bool :=
  match s.getLast? with
  | some d => d = c
  | none => false

/-- The fixed stopword set of search.py (STOPWORDS). -/
def STOPWORDS : List PyStr :=
  ["when".toList, "what".toList, "which".toList, "who".toList, "where".toList,
   "how".toList, "why".toList,
   "is".toList, "are".toList, "was".toList, "were".toList, "will".toList,
   "shall".toList, "can".toList, "could".toList,
   "please".toList, "tell".toList, "me".toList, "about".toList, "the".toList,
   "a".toList, "an".toList, "of".toList, "for".toList]

/-- Embedding of normalize_query of search.py: trim and lowercase, strip one
trailing question mark, split on whitespace, drop stopword tokens, rejoin
with single spaces, and trim the result. -/
def normalize_query (q : PyStr) : PyStr :=
  let q1 := pyLower (pyStrip q)
  if q1.isEmpty then [] else
  let q2 := if pyEndsWith q1 '?' then q1.dropLast else q1
  let tokens := (pySplit q2).filter (fun t => ! STOPWORDS.contains t)
  let base := joinSep [' '] tokens
  pyStrip base

/-- Embedding of title_match_boost of search.py.  Similarity scores are
modelled as rationals; the boost is 0 without a title or query tokens, and
otherwise min 0.15 (0.05 + 0.15 * fraction of query tokens occurring as
substrings of the lowercased title). -/
def title_match_boost (title : PyStr) (normalized_query : PyStr) : ℚ :=
  if title.isEmpty || normalized_query.isEmpty then 0 else
  let title_l := pyLower title
  let tokens := (pySplit normalized_query).filter (fun t => ! t.isEmpty)
  if tokens.isEmpty then 0 else
  let numMatches := (tokens.filter (fun t => pyContains title_l t)).length
  if numMatches = 0 then 0 else
  let frac : ℚ := (numMatches : ℚ) / (tokens.length : ℚ)
  min (15/100 : ℚ) ((5/100 : ℚ) + (15/100 : ℚ) * frac)

example : normalize_query "what??".toList = "what?".toList := by decide
example : normalize_query "what?".toList = [] := by decide
example : normalize_query "is??".toList = "is?".toList := by decide
example : normalize_query "when is the exam?".toList = "exam".toList := by decide
example : normalize_query "".toList = [] := by decide

/-- Python runtime values flowing through the pipeline.  JSON object keys
are strings, so dictionaries are modelled as string-keyed association
lists.  Python floats are modelled as rationals. -/
inductive PyVal where
  | none
  | bool (b : Bool)
  | int (n : Int)
  | float (q : ℚ)
  | str (s : PyStr)
  | list (xs : List PyVal)
  | dict (kvs : List (PyStr × PyVal))

/-- Python type name of a value, as it appears in exception messages. -/
def pyTypeName : PyVal → PyStr
  | .none => "NoneType".toList
  | .bool _ => "bool".toList
  | .int _ => "int".toList
  | .float _ => "float".toList
  | .str _ => "str".toList
  | .list _ => "list".toList
  | .dict _ => "dict".toList

/-- Message of the AttributeError raised when a method named `attr` is
looked up on a value of the wrong type. -/
def attrMsg (v : PyVal) (attr : PyStr) : PyStr :=
  "\x27".toList ++ pyTypeName v ++ "\x27 object has no attribute \x27".toList
    ++ attr ++ "\x27".toList

/-- Python truthiness of a value. -/
def pyTruthy : PyVal → Bool
  | .none => false
  | .bool b => b
  | .int n => n != 0
  | .float q => q != 0
  | .str s => !s.isEmpty
  | .list xs => !xs.isEmpty
  | .dict kvs => !kvs.isEmpty

/-- Model of the Python expression `a or b`. -/
def pyOr (a b : PyVal) : PyVal := if pyTruthy a then a else b

/-- Lookup in a string-keyed dictionary (first match). -/
def dictGet (kvs : List (PyStr × PyVal)) (k : PyStr) : Option PyVal :=
  match kvs.find? (fun kv => kv.1 == k) with
  | some kv => some kv.2
  | Option.none => Option.none

/-- Model of `v.get(k, dflt)`: dictionary lookup with a default, raising
AttributeError when `v` is not a dictionary. -/
def pyGet (v : PyVal) (k : PyStr) (dflt : PyVal) : Except PyStr PyVal :=
  match v with
  | .dict kvs => .ok ((dictGet kvs k).getD dflt)
  | other => .error (attrMsg other "get".toList)

/-- Digits of a natural number in base 10. -/
def natDigits (n : Nat) : PyStr := Nat.toDigits 10 n

/-- Decimal rendering of an integer. -/
def intDigits (n : Int) : PyStr :=
  (if n < 0 then ['-'] else []) ++ natDigits n.natAbs

/-- Numeric value of a Python number (bool counts as 0 or 1). -/
def pyNumQ : PyVal → Option ℚ
  | .bool b => some (if b then 1 else 0)
  | .int n => some (n : ℚ)
  | .float q => some q
  | _ => Option.none

/-- Digits-to-number helper for numeric string parsing. -/
def digitsToNat (ds : PyStr) : Nat :=
  ds.foldl (fun n c => 10 * n + (c.toNat - 48)) 0

/-- Unsigned decimal literal, optionally with a fractional part. -/
def parseUnsignedQ (s : PyStr) : Option ℚ :=
  let ds := s.takeWhile Char.isDigit
  let rest := s.dropWhile Char.isDigit
  match rest with
  | [] => if ds.isEmpty then Option.none else some (digitsToNat ds : ℚ)
  | '.' :: r2 =>
      let fs := r2.takeWhile Char.isDigit
      let r3 := r2.dropWhile Char.isDigit
      if !r3.isEmpty || (ds.isEmpty && fs.isEmpty) then Option.none
      else some ((digitsToNat ds : ℚ) + (digitsToNat fs : ℚ) / ((10 : ℚ) ^ fs.length))
  | _ => Option.none

/-- Model of float(s) on a string argument: optional surrounding
whitespace, optional sign, decimal digits with an optional fractional
part.  Exponent, infinity and nan forms are not modelled; the code under
verification never produces them. -/
def pyFloatParse (s : PyStr) : Option ℚ :=
  match pyStrip s with
  | '-' :: r => (parseUnsignedQ r).map Neg.neg
  | '+' :: r => parseUnsignedQ r
  | r => parseUnsignedQ r

/-- Model of float(v): numeric values convert directly, strings are parsed,
everything else raises. -/
def pyFloatOf (v : PyVal) : Except PyStr ℚ :=
  match v with
  | .bool b => .ok (if b then 1 else 0)
  | .int n => .ok (n : ℚ)
  | .float q => .ok q
  | .str s =>
      match pyFloatParse s with
      | some q => .ok q
      | Option.none =>
          .error ("could not convert string to float: \x27".toList ++ s ++ "\x27".toList)
  | other =>
      .error ("float() argument must be a string or a real number, not \x27".toList
              ++ pyTypeName other ++ "\x27".toList)

/-- Approximate rendering of a Python float for f-string interpolation of
values that are not formatted with a format spec; exact for integral
values, and only reached on inputs outside the well-formed fragment. -/
def floatRepr (q : ℚ) : PyStr :=
  if q.den = 1 then intDigits q.num ++ ".0".toList
  else intDigits q.num ++ "/".toList ++ natDigits q.den

/-- Worker for f-string interpolation of an arbitrary value (str() or
repr() of the value, with a simplified repr for containers). -/
def fstrAux : Nat → PyVal → PyStr
  | _, .none => "None".toList
  | _, .bool true => "True".toList
  | _, .bool false => "False".toList
  | _, .int n => intDigits n
  | _, .float q => floatRepr q
  | _, .str s => s
  | 0, .list _ => "[...]".toList
  | 0, .dict _ => "\x7b...\x7d".toList
  | fuel + 1, .list xs =>
      "[".toList ++ joinSep ", ".toList (xs.map (fstrAux fuel)) ++ "]".toList
  | fuel + 1, .dict kvs =>
      "\x7b".toList
        ++ joinSep ", ".toList
            (kvs.map (fun kv => "\x27".toList ++ kv.1 ++ "\x27: ".toList ++ fstrAux fuel kv.2))
        ++ "\x7d".toList

/-- Model of f-string interpolation of a value without a format spec. -/
def fstr (v : PyVal) : PyStr := fstrAux 16 v

/-- Left-pad a digit string with zeros to the given width. -/
def padZeros (w : Nat) (ds : PyStr) : PyStr :=
  List.replicate (w - ds.length) '0' ++ ds

/-- Fixed-point rendering with 4 decimal places of a rational, modelling
the f-string format spec .4f (rounding to the nearest 4-decimal value). -/
def formatFixed4 (q : ℚ) : PyStr :=
  let scaled : Int := Rat.floor (q * 10000 + 1/2)
  let n := scaled.natAbs
  (if scaled < 0 then ['-'] else [])
    ++ natDigits (n / 10000) ++ ['.'] ++ padZeros 4 (natDigits (n % 10000))

/-- Model of the f-string fragment applying format spec .4f to a value:
numbers format, other types raise a TypeError or ValueError. -/
def pyFormatFixed4 (v : PyVal) : Except PyStr PyStr :=
  match pyNumQ v with
  | some q => .ok (formatFixed4 q)
  | Option.none =>
      match v with
      | .str _ =>
          .error "Unknown format code \x27f\x27 for object of type \x27str\x27".toList
      | other =>
          .error ("unsupported format string passed to ".toList ++ pyTypeName other
                  ++ ".__format__".toList)

/-- Model of iter(v) as used by for-loops: lists yield their elements,
strings their characters, dictionaries their keys; other values raise. -/
def pyIter (v : PyVal) : Except PyStr (List PyVal) :=
  match v with
  | .list xs => .ok xs
  | .str s => .ok (s.map (fun c => .str [c]))
  | .dict kvs => .ok (kvs.map (fun kv => .str kv.1))
  | other =>
      .error ("\x27".toList ++ pyTypeName other ++ "\x27 object is not iterable".toList)

/-- Scoring step of _select_chunks for one candidate: similarity converted
with float() after an or-0.0 guard, plus the title boost.  Returns the
(adjusted, similarity, candidate) triple the Python code appends to
scored. -/
def scoreChunk (nq : PyStr) (c : PyVal) : Except PyStr (ℚ × ℚ × PyVal) := do
  let simv ← pyGet c "similarity".toList (.float 0)
  let sim ← pyFloatOf (pyOr simv (.float 0))
  let titlev ← pyGet c "notice_title".toList .none
  let boost ←
    match pyOr titlev (.str []) with
    | .str s => Except.ok (title_match_boost s nq)
    | v =>
        if pyTruthy v && !nq.isEmpty then Except.error (attrMsg v "lower".toList)
        else Except.ok 0
  .ok (sim + boost, sim, c)

/-- Scoring loop of _select_chunks over the whole candidate list. -/
def scoreChunks (nq : PyStr) : List PyVal → Except PyStr (List (ℚ × ℚ × PyVal))
  | [] => .ok []
  | c :: cs => do
      let s ← scoreChunk nq c
      let rest ← scoreChunks nq cs
      .ok (s :: rest)

/-- Insert a scored triple into a descending-sorted list, after all
entries whose key is at least as large, so that equal keys preserve
arrival order. -/
def insertScoredDesc (a : ℚ × ℚ × PyVal) : List (ℚ × ℚ × PyVal) → List (ℚ × ℚ × PyVal)
  | [] => [a]
  | b :: bs => if a.1 ≤ b.1 then b :: insertScoredDesc a bs else a :: b :: bs

/-- Sorting step of _select_chunks: stable sort by adjusted score,
descending (a stable insertion sort, which agrees with the stable
descending sort the source performs since the rational key order is
total). -/
def sortScored (l : List (ℚ × ℚ × PyVal)) : List (ℚ × ℚ × PyVal) :=
  l.foldl (fun acc t => insertScoredDesc t acc) []

/-- Separator joining selected chunk texts in _select_chunks. -/
def chunkSEP : PyStr := "\n\n---\n\n".toList

/-- Stripped chunk text of a candidate, raising where the Python
expression (c.get("chunk_text") or "").strip() raises. -/
def chunkTextOf (c : PyVal) : Except PyStr PyStr := do
  let tv ← pyGet c "chunk_text".toList .none
  match pyOr tv (.str []) with
  | .str s => Except.ok (pyStrip s)
  | v => Except.error (attrMsg v "strip".toList)

/-- Accumulation loop of _select_chunks: walk the sorted candidates,
skipping empty texts, stopping at the character budget or at
max(top_k, 1) accepted candidates. -/
def selectLoop (maxCtx : Nat) (tk : Int) :
    List (ℚ × ℚ × PyVal) → PyStr → List PyVal → Except PyStr (List PyVal)
  | [], _, final => .ok final
  | t :: rest, combined, final => do
      let text ← chunkTextOf t.2.2
      if text.isEmpty then selectLoop maxCtx tk rest combined final
      else
        if maxCtx < (if combined.isEmpty then text else combined ++ chunkSEP ++ text).length then
          .ok final
        else
          if max tk 1 ≤ (((final ++ [t.2.2]).length : Int)) then .ok (final ++ [t.2.2])
          else
            selectLoop maxCtx tk rest
              (if combined.isEmpty then text else combined ++ chunkSEP ++ text)
              (final ++ [t.2.2])

/-- Embedding of RAGSearch._select_chunks of search.py, parameterised by
the configured MAX_CONTEXT_CHARS. -/
def _select_chunks (maxCtx : Nat) (chunks : List PyVal) (top_k : Int)
    (normalized_query : PyStr) : Except PyStr (List PyVal) :=
  if chunks.isEmpty then .ok [] else do
    let scored ← scoreChunks normalized_query chunks
    selectLoop maxCtx top_k (sortScored scored) [] []

/-- Decidable equality of model outcomes, used to evaluate concrete
runs. -/
instance exceptDecEq {E A : Type} [DecidableEq E] [DecidableEq A] :
    DecidableEq (Except E A) := fun a b =>
  match a, b with
  | .ok x, .ok y =>
      if h : x = y then .isTrue (by rw [h])
      else .isFalse (fun hh => by cases hh; exact h rfl)
  | .error x, .error y =>
      if h : x = y then .isTrue (by rw [h])
      else .isFalse (fun hh => by cases hh; exact h rfl)
  | .ok _, .error _ => .isFalse (fun hh => by cases hh)
  | .error _, .ok _ => .isFalse (fun hh => by cases hh)

/-- Bind of a success reduces to the continuation. -/
@[simp] theorem except_ok_bind {E A B : Type} (a : A) (f : A → Except E B) :
    (Except.ok a >>= f) = f a := rfl

/-- Bind of a failure short-circuits. -/
@[simp] theorem except_error_bind {E A B : Type} (e : E) (f : A → Except E B) :
    ((Except.error e : Except E A) >>= f) = Except.error e := rfl

/-- JSON whitespace accepted between tokens by json.loads. -/
def jsonWS (c : Char) : Bool := c = ' ' || c = '\t' || c = '\n' || c = '\r'

/-- Skip JSON whitespace. -/
def skipWS (s : PyStr) : PyStr := s.dropWhile jsonWS

/-- Value of a hexadecimal digit. -/
def hexVal (c : Char) : Option Nat :=
  if '0' ≤ c && c ≤ '9' then some (c.toNat - 48)
  else if 'a' ≤ c && c ≤ 'f' then some (c.toNat - 87)
  else if 'A' ≤ c && c ≤ 'F' then some (c.toNat - 55)
  else Option.none

/-- Parse the body of a JSON string literal after the opening quote,
returning the decoded content and the input following the closing
quote.  Standard escapes and simple unicode escapes are handled; control
characters are rejected as json.loads does. -/
def parseJString : Nat → PyStr → Option (PyStr × PyStr)
  | 0, _ => Option.none
  | _, [] => Option.none
  | fuel + 1, c :: r =>
      if c = '"' then some ([], r)
      else if c = '\\' then
        match r with
        | [] => Option.none
        | e :: r1 =>
            let cont := fun (d : Char) (rest : PyStr) =>
              (parseJString fuel rest).map (fun p => (d :: p.1, p.2))
            if e = '"' then cont '"' r1
            else if e = '\\' then cont '\\' r1
            else if e = '/' then cont '/' r1
            else if e = 'b' then cont '\x08' r1
            else if e = 'f' then cont '\x0c' r1
            else if e = 'n' then cont '\n' r1
            else if e = 'r' then cont '\r' r1
            else if e = 't' then cont '\t' r1
            else if e = 'u' then
              match r1 with
              | a :: b :: c2 :: d :: r2 =>
                  match hexVal a, hexVal b, hexVal c2, hexVal d with
                  | some ha, some hb, some hc, some hd =>
                      cont (Char.ofNat (((ha * 16 + hb) * 16 + hc) * 16 + hd)) r2
                  | _, _, _, _ => Option.none
              | _ => Option.none
            else Option.none
      else if c.toNat < 32 then Option.none
      else (parseJString fuel r).map (fun p => (c :: p.1, p.2))

/-- Parse an unsigned JSON number, returning an int value when there is no
fractional part and a float value otherwise.  Exponent forms are not
modelled. -/
def parseJNum (s : PyStr) : Option (PyVal × PyStr) :=
  let ds := s.takeWhile Char.isDigit
  let rest := s.dropWhile Char.isDigit
  if ds.isEmpty then Option.none
  else
    match rest with
    | '.' :: r2 =>
        let fs := r2.takeWhile Char.isDigit
        let r3 := r2.dropWhile Char.isDigit
        if fs.isEmpty then Option.none
        else some (.float ((digitsToNat ds : ℚ) + (digitsToNat fs : ℚ) / ((10 : ℚ) ^ fs.length)), r3)
    | _ => some (.int (digitsToNat ds : Int), rest)

/-- Insert a key-value pair in a string-keyed dictionary, overwriting an
existing binding in place as Python dictionaries do. -/
def insertKV (kvs : List (PyStr × PyVal)) (k : PyStr) (v : PyVal) : List (PyStr × PyVal) :=
  if kvs.any (fun kv => kv.1 == k) then
    kvs.map (fun kv => if kv.1 == k then (k, v) else kv)
  else kvs ++ [(k, v)]

/-- Negate a parsed JSON number value. -/
def negJNum : PyVal → PyVal
  | .int n => .int (-n)
  | .float q => .float (-q)
  | v => v

mutual

/-- Parse one JSON value, modelling json.loads grammar (without exponent
number forms).  Fuel bounds recursion depth. -/
def parseJVal : Nat → PyStr → Option (PyVal × PyStr)
  | 0, _ => Option.none
  | fuel + 1, s =>
      match skipWS s with
      | [] => Option.none
      | c :: r =>
          if c = '"' then (parseJString fuel r).map (fun p => (PyVal.str p.1, p.2))
          else if c = '[' then
            match skipWS r with
            | ']' :: r2 => some (.list [], r2)
            | r2 => (parseJElems fuel r2).map (fun p => (PyVal.list p.1, p.2))
          else if c = '\x7b' then
            match skipWS r with
            | '\x7d' :: r2 => some (.dict [], r2)
            | r2 => (parseJMembers fuel [] r2).map (fun p => (PyVal.dict p.1, p.2))
          else if c = '-' then (parseJNum r).map (fun p => (negJNum p.1, p.2))
          else if c = 't' then
            match r with
            | 'r' :: 'u' :: 'e' :: r2 => some (.bool true, r2)
            | _ => Option.none
          else if c = 'f' then
            match r with
            | 'a' :: 'l' :: 's' :: 'e' :: r2 => some (.bool false, r2)
            | _ => Option.none
          else if c = 'n' then
            match r with
            | 'u' :: 'l' :: 'l' :: r2 => some (.none, r2)
            | _ => Option.none
          else parseJNum (c :: r)

/-- Parse the elements of a nonempty JSON array after the opening
bracket. -/
def parseJElems : Nat → PyStr → Option (List PyVal × PyStr)
  | 0, _ => Option.none
  | fuel + 1, s => do
      let (v, r) ← parseJVal fuel s
      match skipWS r with
      | ',' :: r2 => (parseJElems fuel r2).map (fun p => (v :: p.1, p.2))
      | ']' :: r2 => some ([v], r2)
      | _ => Option.none

/-- Parse the members of a nonempty JSON object after the opening brace,
accumulating bindings with Python dictionary overwrite semantics. -/
def parseJMembers : Nat → List (PyStr × PyVal) → PyStr → Option (List (PyStr × PyVal) × PyStr)
  | 0, _, _ => Option.none
  | fuel + 1, acc, s =>
      match skipWS s with
      | '"' :: r => do
          let (k, r1) ← parseJString fuel r
          match skipWS r1 with
          | ':' :: r2 => do
              let (v, r3) ← parseJVal fuel r2
              let acc2 := insertKV acc k v
              match skipWS r3 with
              | ',' :: r4 => parseJMembers fuel acc2 r4
              | '\x7d' :: r4 => some (acc2, r4)
              | _ => Option.none
          | _ => Option.none
      | _ => Option.none

end


/-- Model of json.loads: parse one JSON value and require only whitespace
after it; a failure models json.JSONDecodeError. -/
def pyJsonLoads (s : PyStr) : Except PyStr PyVal :=
  match parseJVal (s.length + 1) s with
  | some (v, rest) =>
      if (skipWS rest).isEmpty then .ok v
      else .error "Extra data".toList
  | Option.none => .error "Expecting value".toList

/-- Result contract of the Response Parser. -/
structure ParseResult where
  answer : PyStr
  sources : List PyVal

/-- Shared body of both branches of _parse_sources_from_response: extract
and strip the answer field (with the given default), coerce sources to a
list, and clear sources when the lowercased answer contains one of the
dont-know or no-specific-question phrases.  Raises AttributeError when
the parsed value is not a dictionary or the answer is not a string. -/
def extractAnswerSources (parsed : PyVal) (dflt : PyStr) :
    Except PyStr ParseResult := do
  let av ← pyGet parsed "answer".toList (.str dflt)
  let answer ←
    match av with
    | .str s => Except.ok (pyStrip s)
    | v => Except.error (attrMsg v "strip".toList)
  let sv ← pyGet parsed "sources".toList (.list [])
  let sources0 :=
    match sv with
    | .list xs => xs
    | _ => []
  let lower_answer := pyLower answer
  let sources :=
    if pyContains lower_answer "i don\x27t know".toList
        || pyContains lower_answer "don\x27t know".toList
        || pyContains lower_answer "no specific question".toList then []
    else sources0
  .ok ⟨answer, sources⟩

/-- Span matched by the regular expression searching for a braced
substring in the fallback branch of the Response Parser: from the first
opening brace to the last closing brace, when the latter comes after the
former. -/
def braceSpan (s : PyStr) : Option PyStr :=
  match s.findIdx? (fun c => c = '\x7b'), s.reverse.findIdx? (fun c => c = '\x7d') with
  | some i, some jr =>
      let j := s.length - 1 - jr
      if i < j then some ((s.drop i).take (j - i + 1)) else Option.none
  | _, _ => Option.none

/-- Embedding of RAGSearch._parse_sources_from_response of search.py:
strict JSON parse of the whole string, fallback parse of the braced
substring, and raw-text degradation when both fail.  Only decode errors
are caught; attribute errors escape, as in the source. -/
def _parse_sources_from_response (response : PyStr) : Except PyStr ParseResult :=
  match pyJsonLoads response with
  | .ok parsed => extractAnswerSources parsed []
  | .error _ =>
      match braceSpan response with
      | some span =>
          match pyJsonLoads span with
          | .ok parsed => extractAnswerSources parsed response
          | .error _ => .ok ⟨response, []⟩
      | Option.none => .ok ⟨response, []⟩

/-- Values that can be dictionary keys; lists and dictionaries raise
TypeError when used as keys. -/
def pyHashable : PyVal → Bool
  | .list _ => false
  | .dict _ => false
  | _ => true

/-- Python equality between hashable values: numbers compare by value
across int, float and bool; strings and None compare structurally. -/
def pyValEqb (a b : PyVal) : Bool :=
  match pyNumQ a, pyNumQ b with
  | some x, some y => x == y
  | _, _ =>
      match a, b with
      | .none, .none => true
      | .str s, .str t => s == t
      | _, _ => false

/-- Lexicographic strict order on strings by code point. -/
def strLtB : PyStr → PyStr → Bool
  | [], [] => false
  | [], _ :: _ => true
  | _ :: _, [] => false
  | a :: as_, b :: bs =>
      if a.toNat < b.toNat then true
      else if b.toNat < a.toNat then false
      else strLtB as_ bs

/-- Model of the Python comparison `a > b`: numbers compare by value,
strings lexicographically, other combinations raise TypeError. -/
def pyGtB (a b : PyVal) : Except PyStr Bool :=
  match pyNumQ a, pyNumQ b with
  | some x, some y => .ok (decide (y < x))
  | _, _ =>
      match a, b with
      | .str s, .str t => .ok (strLtB t s)
      | _, _ =>
          .error ("\x27>\x27 not supported between instances of \x27".toList
                  ++ pyTypeName a ++ "\x27 and \x27".toList ++ pyTypeName b ++ "\x27".toList)

/-- Phase-1 block of _build_prompt for the chunk with 1-based index i. -/
def chunkBlock (i : Nat) (c : PyVal) : Except PyStr PyStr := do
  let tv ← pyGet c "chunk_text".toList .none
  let chunk_text ←
    match pyOr tv (.str []) with
    | .str s => Except.ok (pyStrip s)
    | v => Except.error (attrMsg v "strip".toList)
  let filename ← pyGet c "filename".toList (.str "unknown".toList)
  let notice_link ← pyGet c "notice_link".toList (.str "N/A".toList)
  let simv ← pyGet c "similarity".toList (.float 0)
  let notice_id ← pyGet c "notice_id".toList (.str "UNKNOWN".toList)
  let titlev ← pyGet c "notice_title".toList .none
  let title := pyOr titlev (.str [])
  let score ← pyFormatFixed4 simv
  .ok (joinSep "\n".toList
    [ "--- CONTEXT CHUNK ".toList ++ natDigits i ++ " ---".toList,
      "NOTICE_ID: ".toList ++ fstr notice_id,
      "TITLE: ".toList ++ fstr title,
      "FILENAME: ".toList ++ fstr filename,
      "SOURCE_LINK: ".toList ++ fstr notice_link,
      "SCORE: ".toList ++ score,
      [],
      "CHUNK_TEXT:".toList,
      chunk_text,
      "--- END CONTEXT CHUNK ".toList ++ natDigits i ++ " ---".toList ])

/-- Phase-1 loop of _build_prompt: one labeled block per selected chunk,
indexed from 1. -/
def chunkBlocksFrom (i : Nat) : List PyVal → Except PyStr (List PyStr)
  | [] => .ok []
  | c :: cs => do
      let b ← chunkBlock i c
      let rest ← chunkBlocksFrom (i + 1) cs
      .ok (b :: rest)

/-- Per-notice data tracked by the grouping step of _build_prompt. -/
structure NoticeInfo where
  filename : PyVal
  notice_link : PyVal
  ocr : PyVal
  title : PyVal
  max_similarity : PyVal

/-- Grouping step of _build_prompt: candidates grouped by notice id in
insertion order, keeping the maximum similarity per notice. -/
def groupNotices : List PyVal → List (PyVal × NoticeInfo) →
    Except PyStr (List (PyVal × NoticeInfo))
  | [], acc => .ok acc
  | c :: cs, acc => do
      let nidv ← pyGet c "notice_id".toList .none
      let nid := pyOr nidv (.str "UNKNOWN".toList)
      if !pyHashable nid then
        .error ("unhashable type: \x27".toList ++ pyTypeName nid ++ "\x27".toList)
      else
        match (acc.find? (fun kv => pyValEqb kv.1 nid)) with
        | Option.none => do
            let filename ← pyGet c "filename".toList (.str "unknown".toList)
            let link ← pyGet c "notice_link".toList (.str "N/A".toList)
            let ocrv ← pyGet c "notice_ocr".toList .none
            let titlev ← pyGet c "notice_title".toList .none
            let simv ← pyGet c "similarity".toList (.float 0)
            groupNotices cs
              (acc ++ [(nid, ⟨filename, link, pyOr ocrv (.str []), pyOr titlev (.str []), simv⟩)])
        | some kv => do
            let simv ← pyGet c "similarity".toList (.float 0)
            let gt ← pyGtB simv kv.2.max_similarity
            let acc2 :=
              if gt then
                acc.map (fun kv2 =>
                  if pyValEqb kv2.1 nid then (kv2.1, { kv2.2 with max_similarity := simv })
                  else kv2)
              else acc
            groupNotices cs acc2

/-- Ordering step of _build_prompt: notices sorted by maximum similarity,
descending.  When this point is reached every stored similarity has
already been formatted with the .4f spec in phase 1 and is therefore
numeric; non-numeric keys model the TypeError Python sorting would
raise. -/
def insertNoticeDesc (a : PyVal × NoticeInfo) :
    List (PyVal × NoticeInfo) → List (PyVal × NoticeInfo)
  | [] => [a]
  | b :: bs =>
      if (pyNumQ a.2.max_similarity).getD 0 ≤ (pyNumQ b.2.max_similarity).getD 0 then
        b :: insertNoticeDesc a bs
      else a :: b :: bs

def sortNoticesByMaxSim (items : List (PyVal × NoticeInfo)) :
    Except PyStr (List (PyVal × NoticeInfo)) :=
  if items.all (fun kv => (pyNumQ kv.2.max_similarity).isSome) then
    .ok (items.foldl (fun acc kv => insertNoticeDesc kv acc) [])
  else
    .error "\x27<\x27 not supported between instances".toList

/-- Model of the slice ocr_text[:trunc] used for the per-notice OCR
truncation; subscripting a non-sequence raises TypeError. -/
def pySliceTake (trunc : Nat) (v : PyVal) : Except PyStr PyVal :=
  match v with
  | .str s => .ok (.str (s.take trunc))
  | .list xs => .ok (.list (xs.take trunc))
  | other =>
      .error ("\x27".toList ++ pyTypeName other ++ "\x27 object is not subscriptable".toList)

/-- Phase-2 block of _build_prompt for the notice with 1-based index j. -/
def noticeBlock (j : Nat) (nid : PyVal) (info : NoticeInfo) (ocr_part : PyVal) : PyStr :=
  "--- FULL NOTICE ".toList ++ natDigits j ++ " ---\n".toList
    ++ "NOTICE_ID: ".toList ++ fstr nid ++ "\n".toList
    ++ "TITLE: ".toList ++ fstr info.title ++ "\n".toList
    ++ "FILENAME: ".toList ++ fstr info.filename ++ "\n".toList
    ++ "SOURCE_LINK: ".toList ++ fstr info.notice_link ++ "\n".toList
    ++ "FULL_NOTICE_OCR:\n".toList ++ fstr ocr_part ++ "\n".toList
    ++ "--- END FULL NOTICE ".toList ++ natDigits j ++ " ---\n".toList

/-- Phase-2 loop of _build_prompt: emit full-notice blocks in order while
the running character total stays within the global budget; the
enumeration index advances even over skipped notices. -/
def ocrLoop (maxCtx trunc : Nat) :
    Nat → List (PyVal × NoticeInfo) → Nat → List PyStr → Except PyStr (List PyStr)
  | _, [], _, blocks => .ok blocks
  | j, kv :: rest, used, blocks =>
      if !pyTruthy (pyOr kv.2.ocr (.str [])) then ocrLoop maxCtx trunc (j + 1) rest used blocks
      else do
        let part ←
          if trunc > 0 then pySliceTake trunc (pyOr kv.2.ocr (.str []))
          else Except.ok (pyOr kv.2.ocr (.str []))
        if maxCtx < used + (noticeBlock j kv.1 kv.2 part).length then .ok blocks
        else
          ocrLoop maxCtx trunc (j + 1) rest (used + (noticeBlock j kv.1 kv.2 part).length)
            (blocks ++ [noticeBlock j kv.1 kv.2 part])

/-- Context-assembly part of RAGSearch._build_prompt of search.py: the
phase-1 chunk section followed by budget-limited phase-2 full-notice
blocks. -/
def assembleContext (maxCtx trunc : Nat) (selected : List PyVal) : Except PyStr PyStr := do
  let blocks ← chunkBlocksFrom 1 selected
  let notices ← groupNotices selected []
  let ordered ← sortNoticesByMaxSim notices
  let ocrBlocks ← ocrLoop maxCtx trunc 1 ordered (joinSep "\n\n".toList blocks).length []
  .ok (if ocrBlocks.isEmpty then joinSep "\n\n".toList blocks
       else joinSep "\n\n".toList blocks ++ "\n\n".toList ++ joinSep "\n\n".toList ocrBlocks)

/-- Lines of the instruction preamble of build_base_prompt of
base_prompt.py, up to the CONTEXT marker. -/
def basePromptHeadLines : List PyStr :=
  [ "You are an intelligent assistant that answers university notice queries".toList,
    "using ONLY the provided context. The context may include exam schedules,".toList,
    "venues, batches, roll numbers, dates, and faculty names.".toList,
    [],
    "Your job:".toList,
    "1. Read the context carefully.".toList,
    "2. Provide a clear, precise, and factual answer to the user\x27s question.".toList,
    "3. Include every relevant detail found in the context (e.g., date, venue, time,".toList,
    "   batch info, roll numbers, department, HOD, etc.) but dont add unnecessary details (eg. telling about practical exam datesheet when user asked theory exam datesheet).".toList,
    "4. Do NOT add or assume anything beyond the context.".toList,
    "5. Track ALL sources (NOTICE_IDs and SOURCE_LINKs) that you use to form your answer.".toList,
    "6. If the context doesn\x27t answer the question, set sources to empty array [] and reply with:".toList,
    "   \"I don\x27t know based on the available notices.\"".toList,
    "7. If no question is asked, set sources to empty array [] and reply with:".toList,
    "   \"No specific question to answer.\"".toList,
    "8. Do NOT add any \"however\", \"note\" or disclaimers.".toList,
    [],
    "IMPORTANT: Return your response as a valid JSON object with EXACTLY this format (no extra text before or after):".toList,
    "\x7b".toList,
    "  \"answer\": \"your complete factual answer here\",".toList,
    "  \"sources\": [".toList,
    "    \x7b\"notice_id\": \"ID1\", \"source_link\": \"https://...\"\x7d,".toList,
    "    \x7b\"notice_id\": \"ID2\", \"source_link\": \"https://...\"\x7d".toList,
    "  ]".toList,
    "\x7d".toList,
    [],
    "For \"I don\x27t know\" return:".toList,
    "\x7b".toList,
    "  \"answer\": \"I don\x27t know based on the available notices.\",".toList,
    "  \"sources\": []".toList,
    "\x7d".toList,
    [],
    "For \"No specific question\" return:".toList,
    "\x7b".toList,
    "  \"answer\": \"No specific question to answer.\",".toList,
    "  \"sources\": []".toList,
    "\x7d".toList,
    "---".toList,
    [],
    "CONTEXT:".toList ]

/-- Embedding of build_base_prompt of base_prompt.py: the fixed template
around the context and question, stripped at both ends as the source
strips its f-string. -/
def build_base_prompt (context_text : PyStr) (query : PyStr) : PyStr :=
  pyStrip
    ("\n".toList
      ++ joinSep "\n".toList basePromptHeadLines ++ "\n".toList
      ++ context_text
      ++ "\n\nQUESTION:\n".toList
      ++ query
      ++ "\n\nEnsure the answer is comprehensive and structured with proper sentences.\nReturn ONLY valid JSON, nothing else.\n".toList)

/-- Embedding of RAGSearch._build_prompt of search.py: assembled context
wrapped in the fixed instruction template. -/
def _build_prompt (maxCtx trunc : Nat) (query : PyStr) (selected_chunks : List PyVal) :
    Except PyStr PyStr :=
  (assembleContext maxCtx trunc selected_chunks).map (fun ctx => build_base_prompt ctx query)

/-- Classification of a lowercased error message as a rate-limit or quota
failure, as _call_llm tests it. -/
def isRateLimitMsg (m : PyStr) : Bool :=
  pyContains m "429".toList || pyContains m "resourceexhausted".toList
    || pyContains m "quota".toList || pyContains m "rate limit".toList

/-- Classification of a lowercased error message as a context-length
failure, as _call_llm tests it. -/
def isCtxLenMsg (m : PyStr) : Bool :=
  pyContains m "context_length".toList || pyContains m "too large".toList

/-- Message of the aggregate RuntimeError raised when the retry loop of
_call_llm exhausts its attempts, embedding the last underlying failure. -/
def aggMsg (attempts : Nat) (last : Option PyStr) : PyStr :=
  "LLM invoke failed after trying ".toList ++ natDigits attempts
    ++ " keys. last error: ".toList
    ++ (match last with
        | some m => m
        | Option.none => "None".toList)

/-- Observable outcome of one _call_llm run: the returned text or raised
message, the number of LLM invocations, sleeps and client rebuilds
performed, and the final credential cursor. -/
structure CallState where
  result : Except PyStr PyStr
  invocations : Nat
  sleeps : Nat
  reinits : Nat
  finalIndex : Nat

/-- Retry loop of _call_llm.  The invocation oracle f gives the outcome of
the n-th LLM invocation (text content, or the stringified raised
exception); remaining counts the iterations the while-condition still
permits.  On a rate-limit failure the loop sleeps and rotates (when more
than one credential exists), on any other failure it re-raises; exhausted
attempts raise the aggregate RuntimeError. -/
def callLoop (numKeys : Nat) (f : Nat → Except PyStr PyStr) :
    Nat → Nat → Nat → Nat → Nat → Nat → Option PyStr → CallState
  | 0, attempts, idx, inv, slp, rei, last =>
      ⟨.error (aggMsg attempts last), inv, slp, rei, idx⟩
  | remaining + 1, attempts, idx, inv, slp, rei, _ =>
      match f inv with
      | .ok content => ⟨.ok content, inv + 1, slp, rei, idx⟩
      | .error e =>
          let m := pyLower e
          if isRateLimitMsg m then
            if numKeys ≤ 1 then
              ⟨.error (aggMsg (attempts + 1) (some e)), inv + 1, slp + 1, rei, idx⟩
            else
              callLoop numKeys f remaining (attempts + 1) ((idx + 1) % numKeys)
                (inv + 1) (slp + 1) (rei + 1) (some e)
          else if isCtxLenMsg m then ⟨.error e, inv + 1, slp, rei, idx⟩
          else ⟨.error e, inv + 1, slp, rei, idx⟩

/-- Embedding of RAGSearch._call_llm of search.py for a credential pool of
numKeys keys with the cursor at idx0.  The content extraction from a
successful provider response is collapsed into the oracle, which directly
supplies the returned text. -/
def _call_llm (numKeys idx0 : Nat) (f : Nat → Except PyStr PyStr) : CallState :=
  callLoop numKeys f numKeys 0 idx0 0 0 0 Option.none

/-- Result contract of the orchestrator. -/
structure RAGResult where
  answer : PyStr
  sources : List PyVal

/-- Quota classification used by the orchestrator on a caught failure. -/
def isQuotaMsgOrch (m : PyStr) : Bool :=
  pyContains m "resourceexhausted".toList || pyContains m "quota".toList
    || pyContains m "rate limit".toList || pyContains m "too many requests".toList

/-- Context-length classification used by the orchestrator on a caught
failure. -/
def isCtxMsgOrch (m : PyStr) : Bool :=
  pyContains m "context_length".toList || pyContains m "reduce the length".toList
    || pyContains m "400".toList

/-- Fixed operational answer returned when the quota appears exhausted. -/
def quotaAnswer : PyStr :=
  ("The language model quota appears to be exhausted for the current Gemini setup. "
    ++ "Please update billing or switch to a different model in the backend configuration.").toList

/-- In-place OCR reduction performed by the context-length fallback: set
the notice_ocr field to None on every candidate that has one. -/
def stripOcr : PyVal → PyVal
  | .dict kvs =>
      .dict (kvs.map (fun kv => if kv.1 == "notice_ocr".toList then (kv.1, .none) else kv))
  | v => v

/-- Chunks value extracted from the retriever response, as the source
computes data.get("chunks", []) for dictionaries and [] otherwise. -/
def chunksOf (data : PyVal) : PyVal :=
  match data with
  | .dict kvs => (dictGet kvs "chunks".toList).getD (.list [])
  | _ => .list []

/-- LLM stage of the orchestrator: first _call_llm run, parse, and the
caught-failure policy (quota message, context-length retry with OCR
stripped and the rotated cursor, generic error answer).  A .error result
models an exception escaping this stage. -/
def orchestrateLLM (maxCtx trunc numKeys idx0 : Nat)
    (f1 f2 : Nat → Except PyStr PyStr) (query : PyStr) (selected : List PyVal) :
    Except PyStr RAGResult :=
  match
    (do
      let ans ← (_call_llm numKeys idx0 f1).result
      _parse_sources_from_response ans : Except PyStr ParseResult)
  with
  | .ok p => .ok ⟨p.answer, p.sources⟩
  | .error e =>
      if isQuotaMsgOrch (pyLower e) then .ok ⟨quotaAnswer, []⟩
      else if isCtxMsgOrch (pyLower e) then do
        let _prompt2 ← _build_prompt maxCtx trunc query (selected.map stripOcr)
        match
          (do
            let ans2 ← (_call_llm numKeys (_call_llm numKeys idx0 f1).finalIndex f2).result
            _parse_sources_from_response ans2 : Except PyStr ParseResult)
        with
        | .ok p => .ok ⟨p.answer, p.sources⟩
        | .error e2 =>
            .ok ⟨"[ERROR] LLM call failed after truncation: ".toList ++ e2, []⟩
      else .ok ⟨"[ERROR] LLM call failed: ".toList ++ e, []⟩

/-- Embedding of RAGSearch.search_and_generate of search.py.  The
collaborators are parameters: retr is the outcome of the retriever call
(parsed JSON value or raised message), and f1, f2 are the invocation
oracles of the first and the post-truncation _call_llm runs.  The second
run starts at the credential cursor where the first one ended.  A .error
result models an exception propagating out of search_and_generate to its
caller. -/
def search_and_generate (maxCtx trunc numKeys idx0 : Nat)
    (retr : Except PyStr PyVal) (f1 f2 : Nat → Except PyStr PyStr)
    (query : PyStr) (top_k : Int) : Except PyStr RAGResult :=
  match retr with
  | .error e => .ok ⟨"[ERROR] Retriever call failed: ".toList ++ e, []⟩
  | .ok data =>
      if !pyTruthy (chunksOf data) then .ok ⟨"No relevant documents found.".toList, []⟩
      else do
        let chunkList ← pyIter (chunksOf data)
        let selected ← _select_chunks maxCtx chunkList top_k (normalize_query query)
        if selected.isEmpty then
          .ok ⟨"No relevant documents found after selection.".toList, []⟩
        else do
          let _prompt ← _build_prompt maxCtx trunc query selected
          orchestrateLLM maxCtx trunc numKeys idx0 f1 f2 query selected

/-- Test on the answer field recorded by a parsed JSON object: absent or a
string; anything else makes the .strip() call raise. -/
def answerFieldOk (kvs : List (PyStr × PyVal)) : Bool :=
  match dictGet kvs "answer".toList with
  | Option.none => true
  | some (.str _) => true
  | some _ => false

/-- Test on one json.loads outcome: failures are benign (caught), and a
success is benign only for an object with a benign answer field. -/
def topParseOk : Except PyStr PyVal → Bool
  | .ok (.dict kvs) => answerFieldOk kvs
  | .ok _ => false
  | .error _ => true

/-- Test whether a raw model output string makes every JSON parse the
Response Parser attempts benign: the strict whole-string parse, and, when
that fails, the parse of the braced substring. -/
def parserBenign (s : PyStr) : Bool :=
  match pyJsonLoads s with
  | .ok v => topParseOk (.ok v)
  | .error _ =>
      match braceSpan s with
      | some span => topParseOk (pyJsonLoads span)
      | Option.none => true

/-- Extraction succeeds whenever the parsed object has a benign answer
field. -/
theorem extractAnswerSources_isOk (kvs : List (PyStr × PyVal)) (dflt : PyStr)
    (h : answerFieldOk kvs = true) :
    (extractAnswerSources (.dict kvs) dflt).isOk = true := by
  unfold answerFieldOk at h
  cases hg : dictGet kvs "answer".toList with
  | none =>
      simp only [extractAnswerSources, pyGet, hg, Option.getD]
      rfl
  | some v =>
      rw [hg] at h
      cases v <;> simp only [extractAnswerSources, pyGet, hg, Option.getD] <;>
        first
          | rfl
          | exact absurd h (by simp)

/-- Reduction of the extraction on an object whose answer field is the
string a. -/
theorem extractAnswerSources_str (kvs : List (PyStr × PyVal)) (dflt : PyStr)
    (a : PyStr) (h : dictGet kvs "answer".toList = some (.str a)) :
    extractAnswerSources (.dict kvs) dflt =
      .ok ⟨pyStrip a,
        if (pyContains (pyLower (pyStrip a)) "i don\x27t know".toList
            || pyContains (pyLower (pyStrip a)) "don\x27t know".toList
            || pyContains (pyLower (pyStrip a)) "no specific question".toList) then []
        else (match (dictGet kvs "sources".toList).getD (.list []) with
              | .list xs => xs
              | _ => [])⟩ := by
  simp only [extractAnswerSources, pyGet, h, Option.getD]
  rfl

/-- Extraction clears the sources and returns the stripped answer whenever
the lowercased stripped answer contains one of the sentinel phrases. -/
theorem extractAnswerSources_sentinel (kvs : List (PyStr × PyVal)) (dflt : PyStr)
    (a : PyStr) (h : dictGet kvs "answer".toList = some (.str a))
    (hs : pyContains (pyLower (pyStrip a)) "don\x27t know".toList = true
          ∨ pyContains (pyLower (pyStrip a)) "no specific question".toList = true) :
    extractAnswerSources (.dict kvs) dflt = .ok ⟨pyStrip a, []⟩ := by
  have hcond : (pyContains (pyLower (pyStrip a)) "i don\x27t know".toList
      || pyContains (pyLower (pyStrip a)) "don\x27t know".toList
      || pyContains (pyLower (pyStrip a)) "no specific question".toList) = true := by
    rcases hs with hs | hs
    · rw [hs]
      simp
    · rw [hs]
      simp
  rw [extractAnswerSources_str kvs dflt a h, if_pos hcond]

/-- C3: the Response Parser satisfies the three stated cases: a well-formed
answer-and-sources object is returned as is; a parsed sentinel answer with
nonempty sources comes back with empty sources; non-JSON garbage comes
back verbatim as the answer with empty sources. -/
theorem parse_sources_three_cases :
    _parse_sources_from_response
        "\x7b\"answer\":\"X\",\"sources\":[\x7b\"notice_id\":\"A\",\"source_link\":\"L\"\x7d]\x7d".toList
      = .ok ⟨"X".toList,
          [.dict [("notice_id".toList, .str "A".toList),
                  ("source_link".toList, .str "L".toList)]]⟩
    ∧ _parse_sources_from_response
        "\x7b\"answer\":\"I don\x27t know based on the available notices.\",\"sources\":[\x7b\"notice_id\":\"A\",\"source_link\":\"L\"\x7d]\x7d".toList
      = .ok ⟨"I don\x27t know based on the available notices.".toList, []⟩
    ∧ _parse_sources_from_response "hello world".toList
      = .ok ⟨"hello world".toList, []⟩ :=
  ⟨rfl, rfl, rfl⟩

/-- C4 counterexample: on the raw model output 5, which is valid JSON but
not a JSON object, the Response Parser raises an AttributeError instead of
degrading gracefully. -/
theorem parse_sources_raises_on_bare_number :
    _parse_sources_from_response "5".toList = .error (attrMsg (.int 5) "get".toList) :=
  rfl

/-- C4 amended: the Response Parser returns an answer-and-sources result
without raising for every raw model output string whose attempted JSON
parses are benign, that is, every successful parse (of the whole string
or, failing that, of the first-to-last-brace substring) yields an object
whose answer field is absent or a string; a successful parse to a
non-object, or to an object with a non-string answer, raises instead. -/
theorem parse_sources_benign_total (s : PyStr) (h : parserBenign s = true) :
    (_parse_sources_from_response s).isOk = true := by
  unfold parserBenign at h
  cases hj : pyJsonLoads s with
  | ok v =>
      rw [hj] at h
      have h2 : topParseOk (Except.ok v) = true := h
      have hred : _parse_sources_from_response s = extractAnswerSources v [] := by
        unfold _parse_sources_from_response
        rw [hj]
      rw [hred]
      cases v with
      | dict kvs => exact extractAnswerSources_isOk kvs [] (by simpa [topParseOk] using h2)
      | none => simp [topParseOk] at h2
      | bool b => simp [topParseOk] at h2
      | int n => simp [topParseOk] at h2
      | float q => simp [topParseOk] at h2
      | str t => simp [topParseOk] at h2
      | list xs => simp [topParseOk] at h2
  | error e =>
      rw [hj] at h
      cases hb : braceSpan s with
      | none =>
          have hred : _parse_sources_from_response s = .ok ⟨s, []⟩ := by
            unfold _parse_sources_from_response
            rw [hj, hb]
          rw [hred]
          rfl
      | some span =>
          rw [hb] at h
          have h2 : topParseOk (pyJsonLoads span) = true := h
          have hred : _parse_sources_from_response s =
              (match pyJsonLoads span with
               | Except.ok parsed => extractAnswerSources parsed s
               | Except.error _ => Except.ok ⟨s, []⟩) := by
            unfold _parse_sources_from_response
            rw [hj, hb]
          rw [hred]
          cases hj2 : pyJsonLoads span with
          | ok v =>
              rw [hj2] at h2
              cases v with
              | dict kvs => exact extractAnswerSources_isOk kvs s (by simpa [topParseOk] using h2)
              | none => simp [topParseOk] at h2
              | bool b => simp [topParseOk] at h2
              | int n => simp [topParseOk] at h2
              | float q => simp [topParseOk] at h2
              | str t => simp [topParseOk] at h2
              | list xs => simp [topParseOk] at h2
          | error e2 => rfl

/-- C4 witness: a garbage input is benign and parses without raising. -/
theorem parse_sources_benign_total_witness :
    (_parse_sources_from_response "*** not json at all".toList).isOk = true :=
  parse_sources_benign_total "*** not json at all".toList (by decide)

/-- C10: the sentinel rule of the Response Parser is substring-based: for
every model output that strictly parses to a JSON object whose answer
field is a string, if the lowercased (stripped) answer contains the
phrase dont-know or no-specific-question anywhere, the returned sources
list is empty regardless of the sources the model supplied, and the
answer is the stripped answer field. -/
theorem parse_sources_sentinel_substring (s : PyStr) (kvs : List (PyStr × PyVal))
    (a : PyStr) (h1 : pyJsonLoads s = .ok (.dict kvs))
    (h2 : dictGet kvs "answer".toList = some (.str a))
    (h3 : pyContains (pyLower (pyStrip a)) "don\x27t know".toList = true
          ∨ pyContains (pyLower (pyStrip a)) "no specific question".toList = true) :
    _parse_sources_from_response s = .ok ⟨pyStrip a, []⟩ := by
  unfold _parse_sources_from_response
  rw [h1]
  exact extractAnswerSources_sentinel kvs [] a h2 h3

/-- C10 witness: an otherwise substantive answer containing the dont-know
phrase comes back with its model-supplied source list cleared. -/
theorem parse_sources_sentinel_substring_witness :
    _parse_sources_from_response
        "\x7b\"answer\":\"The fee is 500 but I don\x27t know the venue\",\"sources\":[\x7b\"notice_id\":\"N1\",\"source_link\":\"L\"\x7d]\x7d".toList
      = .ok ⟨pyStrip "The fee is 500 but I don\x27t know the venue".toList, []⟩ :=
  parse_sources_sentinel_substring _
    [("answer".toList, .str "The fee is 500 but I don\x27t know the venue".toList),
     ("sources".toList,
        .list [.dict [("notice_id".toList, .str "N1".toList),
                      ("source_link".toList, .str "L".toList)]])]
    "The fee is 500 but I don\x27t know the venue".toList
    (by rfl) (by rfl) (Or.inl (by decide))

/-- C5: when the first invocation fails with an error classified as
context-length-exceeded and not as rate-limiting, _call_llm propagates
that error after exactly one invocation, with no sleep, no client rebuild
and an unchanged credential cursor. -/
theorem call_llm_ctx_length_no_rotation (numKeys idx0 : Nat)
    (f : Nat → Except PyStr PyStr) (msg : PyStr) (hN : 0 < numKeys)
    (h0 : f 0 = .error msg) (hrl : isRateLimitMsg (pyLower msg) = false)
    (hcl : isCtxLenMsg (pyLower msg) = true) :
    _call_llm numKeys idx0 f = ⟨.error msg, 1, 0, 0, idx0⟩ := by
  obtain ⟨r, rfl⟩ : ∃ r, numKeys = r + 1 := ⟨numKeys - 1, by omega⟩
  unfold _call_llm
  simp [callLoop, h0, hrl, hcl]

/-- C5 witness at a concrete pool and error message. -/
theorem call_llm_ctx_length_no_rotation_witness :
    _call_llm 2 0 (fun _ => .error "Request payload too large for model".toList)
      = ⟨.error "Request payload too large for model".toList, 1, 0, 0, 0⟩ :=
  call_llm_ctx_length_no_rotation 2 0 _ _ (by decide) rfl (by decide) (by decide)

/-- Exhaustion lemma for the retry loop: when every invocation fails with
a rate-limit-classified error, the loop performs one invocation per
permitted attempt and ends with the aggregate error built from the final
attempt count and the last failure message. -/
theorem callLoop_all_rate_limited (N : Nat) (f : Nat → Except PyStr PyStr)
    (msgs : Nat → PyStr)
    (hall : ∀ i, i < N → f i = .error (msgs i) ∧ isRateLimitMsg (pyLower (msgs i)) = true) :
    ∀ r a idx slp rei last, a + r = N → 0 < r →
      (callLoop N f r a idx a slp rei last).invocations = N ∧
      (callLoop N f r a idx a slp rei last).result
        = .error (aggMsg N (some (msgs (N - 1)))) := by
  intro r
  induction r with
  | zero =>
      intro a idx slp rei last hsum h0
      exact absurd h0 (by omega)
  | succ r ih =>
      intro a idx slp rei last hsum _
      have ha : a < N := by omega
      obtain ⟨hf, hrl⟩ := hall a ha
      by_cases hk : N ≤ 1
      · have hN1 : N = 1 := by omega
        have ha0 : a = 0 := by omega
        subst ha0
        simp only [callLoop, hf, hrl, if_pos hk, if_true]
        constructor
        · simp [hN1]
        · simp [hN1]
      · cases r with
        | zero =>
            have haN : a + 1 = N := by omega
            have ha1 : a = N - 1 := by omega
            simp only [callLoop, hf, hrl, if_neg hk, if_true]
            subst haN
            rw [ha1]
            exact ⟨rfl, rfl⟩
        | succ r2 =>
            have step :
                callLoop N f (r2 + 1 + 1) a idx a slp rei last
                  = callLoop N f (r2 + 1) (a + 1) ((idx + 1) % N) (a + 1)
                      (slp + 1) (rei + 1) (some (msgs a)) := by
              simp [callLoop, hf, hrl, if_neg hk]
            rw [step]
            exact ih (a + 1) ((idx + 1) % N) (slp + 1) (rei + 1) (some (msgs a))
              (by omega) (by omega)

/-- C6: for a pool of N credentials, if every invocation fails with a
rate-limit-classified error, _call_llm makes exactly N invocations and
then fails with the aggregate error naming N attempts and embedding the
last underlying failure message as a suffix; in particular the retry loop
terminates. -/
theorem call_llm_all_rate_limited (N idx0 : Nat) (f : Nat → Except PyStr PyStr)
    (msgs : Nat → PyStr) (hN : 0 < N)
    (hall : ∀ i, i < N → f i = .error (msgs i) ∧ isRateLimitMsg (pyLower (msgs i)) = true) :
    (_call_llm N idx0 f).invocations = N ∧
    (_call_llm N idx0 f).result = .error (aggMsg N (some (msgs (N - 1)))) ∧
    msgs (N - 1) <:+ aggMsg N (some (msgs (N - 1))) := by
  have h := callLoop_all_rate_limited N f msgs hall N 0 idx0 0 0 Option.none (by omega) hN
  refine ⟨h.1, h.2, ?_⟩
  show msgs (N - 1) <:+
    "LLM invoke failed after trying ".toList ++ natDigits N
      ++ " keys. last error: ".toList ++ msgs (N - 1)
  exact List.suffix_append _ _

/-- C6 messages used by the witness. -/
def c6msgs : Nat → PyStr :=
  fun i => if i = 0 then "429 resource exhausted".toList else "quota exceeded for key".toList

/-- C6 witness: two credentials, both rate limited. -/
theorem call_llm_all_rate_limited_witness :
    (_call_llm 2 5 (fun i => .error (c6msgs i))).invocations = 2 ∧
    (_call_llm 2 5 (fun i => .error (c6msgs i))).result
      = .error (aggMsg 2 (some (c6msgs 1))) ∧
    c6msgs 1 <:+ aggMsg 2 (some (c6msgs 1)) :=
  call_llm_all_rate_limited 2 5 (fun i => .error (c6msgs i)) c6msgs (by decide)
    (fun i hi => ⟨rfl, by interval_cases i <;> decide⟩)

/-- Characters built from valid codes keep their code. -/
theorem char_ofNat_toNat (n : Nat) (hv : n.isValidChar) : (Char.ofNat n).toNat = n := by
  unfold Char.ofNat
  rw [dif_pos hv]
  rfl

/-- ASCII lowercasing is idempotent. -/
theorem charToLowerIdem (c : Char) : (c.toLower).toLower = c.toLower := by
  simp only [Char.toLower]
  by_cases h : c.toNat ≥ 65 ∧ c.toNat ≤ 90
  · rw [if_pos h]
    have ht : (Char.ofNat (c.toNat + 32)).toNat = c.toNat + 32 :=
      char_ofNat_toNat _ (Or.inl (by omega))
    rw [ht, if_neg (by omega)]
  · rw [if_neg h, if_neg h]

/-- Mapping a function that fixes every element of a list is the
identity. -/
theorem map_fix_eq_self {α : Type} (f : α → α) :
    ∀ l : List α, (∀ a ∈ l, f a = a) → l.map f = l := by
  intro l
  induction l with
  | nil => intro _; rfl
  | cons a l ih =>
      intro h
      simp only [List.map_cons]
      rw [h a (List.mem_cons_self a l), ih (fun b hb => h b (List.mem_cons_of_mem a hb))]

/-- Tokens produced by the splitting worker are nonempty, free of
whitespace, and drawn from the input and the accumulator. -/
theorem pySplitAux_tokens : ∀ (s : PyStr) (acc : PyStr),
    (∀ c ∈ acc, pyWS c = false) →
    ∀ t ∈ pySplitAux s acc, t ≠ [] ∧ ∀ c ∈ t, pyWS c = false ∧ (c ∈ s ∨ c ∈ acc) := by
  intro s
  induction s with
  | nil =>
      intro acc hacc t ht
      unfold pySplitAux at ht
      by_cases he : acc.isEmpty
      · rw [if_pos he] at ht
        simp at ht
      · rw [if_neg he] at ht
        rw [List.mem_singleton] at ht
        subst ht
        refine ⟨by simpa using he, ?_⟩
        intro c hc
        rw [List.mem_reverse] at hc
        exact ⟨hacc c hc, Or.inr hc⟩
  | cons d ds ih =>
      intro acc hacc t ht
      unfold pySplitAux at ht
      by_cases hws : pyWS d = true
      · rw [if_pos hws] at ht
        by_cases he : acc.isEmpty
        · rw [if_pos he] at ht
          have h := ih [] (by simp) t ht
          refine ⟨h.1, fun c hc => ⟨(h.2 c hc).1, ?_⟩⟩
          rcases (h.2 c hc).2 with h2 | h2
          · exact Or.inl (List.mem_cons_of_mem d h2)
          · simp at h2
        · rw [if_neg he] at ht
          rcases List.mem_cons.mp ht with rfl | ht2
          · refine ⟨by simpa using he, ?_⟩
            intro c hc
            rw [List.mem_reverse] at hc
            exact ⟨hacc c hc, Or.inr hc⟩
          · have h := ih [] (by simp) t ht2
            refine ⟨h.1, fun c hc => ⟨(h.2 c hc).1, ?_⟩⟩
            rcases (h.2 c hc).2 with h2 | h2
            · exact Or.inl (List.mem_cons_of_mem d h2)
            · simp at h2
      · rw [if_neg hws] at ht
        have hacc2 : ∀ c ∈ d :: acc, pyWS c = false := by
          intro c hc
          rcases List.mem_cons.mp hc with rfl | hc2
          · simpa using hws
          · exact hacc c hc2
        have h := ih (d :: acc) hacc2 t ht
        refine ⟨h.1, fun c hc => ⟨(h.2 c hc).1, ?_⟩⟩
        rcases (h.2 c hc).2 with h2 | h2
        · exact Or.inl (List.mem_cons_of_mem d h2)
        · rcases List.mem_cons.mp h2 with rfl | h3
          · exact Or.inl (List.mem_cons_self c ds)
          · exact Or.inr h3

/-- Tokens of a split string are nonempty, whitespace free and drawn from
the string. -/
theorem pySplit_tokens (s : PyStr) :
    ∀ t ∈ pySplit s, t ≠ [] ∧ ∀ c ∈ t, pyWS c = false ∧ c ∈ s := by
  intro t ht
  have h := pySplitAux_tokens s [] (by simp) t ht
  refine ⟨h.1, fun c hc => ⟨(h.2 c hc).1, ?_⟩⟩
  rcases (h.2 c hc).2 with h2 | h2
  · exact h2
  · simp at h2

/-- The splitting worker consumes a whitespace-free token into the
accumulator. -/
theorem pySplitAux_token_append (t : PyStr) (ht : ∀ c ∈ t, pyWS c = false) :
    ∀ rest acc, pySplitAux (t ++ rest) acc = pySplitAux rest (t.reverse ++ acc) := by
  induction t with
  | nil => simp
  | cons d ds ih =>
      intro rest acc
      have hd : pyWS d = false := ht d (List.mem_cons_self d ds)
      have hds : ∀ c ∈ ds, pyWS c = false := fun c hc => ht c (List.mem_cons_of_mem d hc)
      show pySplitAux (d :: (ds ++ rest)) acc = pySplitAux rest ((d :: ds).reverse ++ acc)
      simp only [pySplitAux]
      rw [if_neg (by simp [hd])]
      rw [ih hds rest (d :: acc)]
      congr 1
      simp

/-- Splitting a single-space join of nonempty whitespace-free tokens
recovers the tokens. -/
theorem pySplit_joinSep : ∀ ts : List PyStr,
    (∀ t ∈ ts, t ≠ [] ∧ ∀ c ∈ t, pyWS c = false) →
    pySplit (joinSep [' '] ts) = ts := by
  intro ts
  induction ts with
  | nil => intro _; rfl
  | cons t ts ih =>
      intro h
      obtain ⟨hne, hws⟩ := h t (List.mem_cons_self t ts)
      cases ts with
      | nil =>
          show pySplit t = [t]
          unfold pySplit
          have h2 := pySplitAux_token_append t hws [] []
          rw [List.append_nil] at h2
          rw [h2]
          unfold pySplitAux
          rw [List.append_nil, if_neg (by simpa using hne)]
          rw [List.reverse_reverse]
      | cons t2 ts2 =>
          show pySplit (t ++ [' '] ++ joinSep [' '] (t2 :: ts2)) = t :: t2 :: ts2
          unfold pySplit
          rw [List.append_assoc]
          rw [pySplitAux_token_append t hws _ []]
          show pySplitAux (' ' :: joinSep [' '] (t2 :: ts2)) (t.reverse ++ []) = _
          simp only [pySplitAux]
          rw [if_pos (by decide)]
          rw [List.append_nil]
          rw [if_neg (by simpa using hne)]
          rw [List.reverse_reverse]
          show t :: pySplit (joinSep [' '] (t2 :: ts2)) = t :: t2 :: ts2
          rw [ih (fun u hu => h u (List.mem_cons_of_mem t hu))]

/-- A join headed by a nonempty token is nonempty. -/
theorem joinSep_ne_nil (sep : PyStr) (t : PyStr) (ts : List PyStr) (hne : t ≠ []) :
    joinSep sep (t :: ts) ≠ [] := by
  cases ts with
  | nil => exact hne
  | cons t2 ts2 =>
      show t ++ sep ++ joinSep sep (t2 :: ts2) ≠ []
      simp [hne]

/-- The head of a join is the head of its first token. -/
theorem joinSep_head (sep : PyStr) (t : PyStr) (ts : List PyStr) (hne : t ≠ []) :
    (joinSep sep (t :: ts)).head? = t.head? := by
  cases ts with
  | nil => rfl
  | cons t2 ts2 =>
      show (t ++ sep ++ joinSep sep (t2 :: ts2)).head? = t.head?
      rw [List.append_assoc, List.head?_append]
      cases t with
      | nil => exact absurd rfl hne
      | cons c cs => rfl

/-- The last element of a join is the last element of one of its tokens. -/
theorem joinSep_getLast (sep : PyStr) : ∀ (ts : List PyStr) (t : PyStr),
    t ≠ [] → (∀ u ∈ ts, u ≠ []) →
    ∃ u ∈ t :: ts, (joinSep sep (t :: ts)).getLast? = u.getLast? := by
  intro ts
  induction ts with
  | nil =>
      intro t ht _
      exact ⟨t, List.mem_cons_self t [], rfl⟩
  | cons t2 ts2 ih =>
      intro t ht hts
      obtain ⟨u, hu, he⟩ := ih t2 (hts t2 (List.mem_cons_self t2 ts2))
        (fun v hv => hts v (List.mem_cons_of_mem t2 hv))
      refine ⟨u, List.mem_cons_of_mem t hu, ?_⟩
      show (t ++ sep ++ joinSep sep (t2 :: ts2)).getLast? = u.getLast?
      rw [List.getLast?_append]
      rw [he]
      have hne2 : joinSep sep (t2 :: ts2) ≠ [] :=
        joinSep_ne_nil sep t2 ts2 (hts t2 (List.mem_cons_self t2 ts2))
      have : u.getLast? ≠ Option.none := by
        rw [← he]
        cases hj : joinSep sep (t2 :: ts2) with
        | nil => exact absurd hj hne2
        | cons c cs => simp [List.getLast?]
      cases hu2 : u.getLast? with
      | none => exact absurd hu2 this
      | some c => rfl

/-- Every character of a join is a separator character or a token
character. -/
theorem joinSep_mem (sep : PyStr) : ∀ (ts : List PyStr) (c : Char),
    c ∈ joinSep sep ts → c ∈ sep ∨ ∃ t ∈ ts, c ∈ t := by
  intro ts
  induction ts with
  | nil => intro c hc; simp [joinSep] at hc
  | cons t ts ih =>
      intro c hc
      cases ts with
      | nil => exact Or.inr ⟨t, List.mem_cons_self t [], hc⟩
      | cons t2 ts2 =>
          rw [show joinSep sep (t :: t2 :: ts2) = t ++ sep ++ joinSep sep (t2 :: ts2) from rfl,
            List.append_assoc, List.mem_append, List.mem_append] at hc
          rcases hc with hc | hc | hc
          · exact Or.inr ⟨t, List.mem_cons_self t _, hc⟩
          · exact Or.inl hc
          · rcases ih c hc with h | ⟨u, hu, hcu⟩
            · exact Or.inl h
            · exact Or.inr ⟨u, List.mem_cons_of_mem t hu, hcu⟩

/-- Stripping is the identity on a string whose two ends are not
whitespace. -/
theorem pyStrip_noop (s : PyStr)
    (hh : ∀ c, s.head? = some c → pyWS c = false)
    (hl : ∀ c, s.getLast? = some c → pyWS c = false) :
    pyStrip s = s := by
  cases s with
  | nil => rfl
  | cons c cs =>
      have h1 : pyWS c = false := hh c rfl
      unfold pyStrip
      rw [List.dropWhile_cons, if_neg (by simp [h1])]
      cases hr : (c :: cs).reverse with
      | nil => simp at hr
      | cons d ds =>
          have hd : (c :: cs).getLast? = some d := by
            rw [← List.head?_reverse, hr]
            rfl
          have h2 : pyWS d = false := hl d hd
          rw [List.dropWhile_cons, if_neg (by simp [h2]), ← hr, List.reverse_reverse]

/-- Stripping is the identity on a single-space join of nonempty
whitespace-free tokens. -/
theorem pyStrip_joinSep (ts : List PyStr)
    (h : ∀ t ∈ ts, t ≠ [] ∧ ∀ c ∈ t, pyWS c = false) :
    pyStrip (joinSep [' '] ts) = joinSep [' '] ts := by
  cases ts with
  | nil => rfl
  | cons t ts2 =>
      obtain ⟨hne, hws⟩ := h t (List.mem_cons_self t ts2)
      apply pyStrip_noop
      · intro c hc
        rw [joinSep_head [' '] t ts2 hne] at hc
        exact hws c (List.mem_of_mem_head? (by rw [hc]; rfl))
      · intro c hc
        obtain ⟨u, hu, he⟩ := joinSep_getLast [' '] ts2 t hne
          (fun v hv => (h v (List.mem_cons_of_mem t hv)).1)
        rw [he] at hc
        have hcu : c ∈ u := by
          have := List.mem_of_mem_head? (l := u.reverse)
            (by rw [List.head?_reverse, hc]; rfl)
          simpa using this
        exact (h u hu).2 c hcu

/-- Shape of every Query Normalizer output: a single-space join of
nonempty, whitespace-free, already-lowercased, non-stopword tokens, which
splitting recovers exactly. -/
theorem normalize_query_shape (x : PyStr) :
    ∃ ts : List PyStr, normalize_query x = joinSep [' '] ts ∧
      pySplit (normalize_query x) = ts ∧
      ∀ t ∈ ts, t ≠ [] ∧ STOPWORDS.contains t = false ∧
        ∀ c ∈ t, pyWS c = false ∧ Char.toLower c = c := by
  have hexp : normalize_query x =
      if (pyLower (pyStrip x)).isEmpty then ([] : PyStr)
      else pyStrip (joinSep [' ']
        ((pySplit (if pyEndsWith (pyLower (pyStrip x)) '?'
                   then (pyLower (pyStrip x)).dropLast
                   else pyLower (pyStrip x))).filter
          (fun t => ! STOPWORDS.contains t))) := rfl
  by_cases he : (pyLower (pyStrip x)).isEmpty
  · refine ⟨[], ?_, ?_, by simp⟩
    · rw [hexp, if_pos he]
      rfl
    · rw [hexp, if_pos he]
      rfl
  · set q2 := if pyEndsWith (pyLower (pyStrip x)) '?'
        then (pyLower (pyStrip x)).dropLast else pyLower (pyStrip x) with hq2
    set ts := (pySplit q2).filter (fun t => ! STOPWORDS.contains t) with hts
    have hsubq : ∀ c ∈ q2, c ∈ pyLower (pyStrip x) := by
      intro c hc
      rw [hq2] at hc
      by_cases hend : pyEndsWith (pyLower (pyStrip x)) '?'
      · rw [if_pos hend] at hc
        exact (List.dropLast_sublist _).subset hc
      · rw [if_neg hend] at hc
        exact hc
    have hfacts : ∀ t ∈ ts, t ≠ [] ∧ STOPWORDS.contains t = false ∧
        ∀ c ∈ t, pyWS c = false ∧ Char.toLower c = c := by
      intro t ht
      rw [hts, List.mem_filter] at ht
      obtain ⟨ht1, ht2⟩ := ht
      have hp := pySplit_tokens q2 t ht1
      refine ⟨hp.1, by simpa using ht2, ?_⟩
      intro c hc
      refine ⟨(hp.2 c hc).1, ?_⟩
      have hcq1 : c ∈ pyLower (pyStrip x) := hsubq c (hp.2 c hc).2
      simp only [pyLower] at hcq1
      obtain ⟨d, _, rfl⟩ := List.mem_map.mp hcq1
      exact charToLowerIdem d
    have hfacts2 : ∀ t ∈ ts, t ≠ [] ∧ ∀ c ∈ t, pyWS c = false :=
      fun t ht => ⟨(hfacts t ht).1, fun c hc => ((hfacts t ht).2.2 c hc).1⟩
    have hy : normalize_query x = joinSep [' '] ts := by
      rw [hexp, if_neg he]
      exact pyStrip_joinSep ts hfacts2
    refine ⟨ts, hy, ?_, hfacts⟩
    rw [hy]
    exact pySplit_joinSep ts hfacts2

/-- C7 counterexample: normalization is not idempotent; on the input
consisting of the stopword what followed by two question marks, the first
pass yields a token ending in a question mark which the second pass
strips and then drops as a stopword. -/
theorem normalize_query_not_idempotent :
    normalize_query (normalize_query "what??".toList) ≠ normalize_query "what??".toList := by
  decide

/-- C7 amended: normalization is idempotent on every input whose
normalized output does not end with a question mark (only such outputs
can be re-tokenised differently by a second pass). -/
theorem normalize_query_idempotent_no_trailing_qmark (x : PyStr)
    (h : pyEndsWith (normalize_query x) '?' = false) :
    normalize_query (normalize_query x) = normalize_query x := by
  by_cases hynil : normalize_query x = []
  · rw [hynil]
    rfl
  · obtain ⟨ts, hy, hsplit, hfacts⟩ := normalize_query_shape x
    have hfacts2 : ∀ u ∈ ts, u ≠ [] ∧ ∀ c ∈ u, pyWS c = false :=
      fun u hu => ⟨(hfacts u hu).1, fun c hc => ((hfacts u hu).2.2 c hc).1⟩
    have hstrip : pyStrip (normalize_query x) = normalize_query x := by
      rw [hy]
      exact pyStrip_joinSep ts hfacts2
    have hlower : pyLower (normalize_query x) = normalize_query x := by
      unfold pyLower
      apply map_fix_eq_self
      intro c hc
      rw [hy] at hc
      rcases joinSep_mem [' '] ts c hc with hsep | ⟨u, hu, hcu⟩
      · rw [List.mem_singleton] at hsep
        subst hsep
        decide
      · exact ((hfacts u hu).2.2 c hcu).2
    have hexp : normalize_query (normalize_query x) =
        if (pyLower (pyStrip (normalize_query x))).isEmpty then ([] : PyStr)
        else pyStrip (joinSep [' ']
          ((pySplit (if pyEndsWith (pyLower (pyStrip (normalize_query x))) '?'
                     then (pyLower (pyStrip (normalize_query x))).dropLast
                     else pyLower (pyStrip (normalize_query x)))).filter
            (fun t => ! STOPWORDS.contains t))) := rfl
    rw [hexp, hstrip, hlower]
    rw [if_neg (by simp [hynil])]
    rw [if_neg (by simp [h])]
    rw [hsplit]
    rw [List.filter_eq_self.mpr (fun u hu => by
      show (! STOPWORDS.contains u) = true
      rw [(hfacts u hu).2.1]
      rfl)]
    rw [← hy]
    exact hstrip

/-- C7 witness: a query whose normalization has no trailing question mark
is a fixed point of a second normalization. -/
theorem normalize_query_idempotent_witness :
    normalize_query (normalize_query "when is the exam?".toList)
      = normalize_query "when is the exam?".toList :=
  normalize_query_idempotent_no_trailing_qmark "when is the exam?".toList (by decide)

/-- C8 counterexample: the output of the normalizer can end with a
question mark; only one trailing question mark of the input is stripped,
so the token of the input is?? survives as is? with a trailing question
mark. -/
theorem normalize_query_trailing_qmark :
    normalize_query "is??".toList = "is?".toList
    ∧ pyEndsWith (normalize_query "is??".toList) '?' = true := by
  constructor
  · decide
  · decide

/-- C8 amended: the normalizer output, re-split on whitespace, contains no
stopword token, and normalizing the empty string yields the empty string;
the no-trailing-question-mark part of the original claim is dropped,
since only one trailing question mark of the input is stripped. -/
theorem normalize_query_no_stopwords (x : PyStr) :
    (∀ t ∈ pySplit (normalize_query x), STOPWORDS.contains t = false) ∧
    normalize_query ([] : PyStr) = [] := by
  obtain ⟨ts, hy, hsplit, hfacts⟩ := normalize_query_shape x
  refine ⟨?_, rfl⟩
  intro t ht
  rw [hsplit] at ht
  exact (hfacts t ht).2.1

/-- Raw chunk_text field of a candidate, empty when absent or not a
string. -/
def rawChunkTextD (c : PyVal) : PyStr :=
  match c with
  | .dict kvs =>
      match dictGet kvs "chunk_text".toList with
      | some (.str s) => s
      | _ => []
  | _ => []

/-- Stripped chunk_text of a candidate, as the selector accumulates it. -/
def strippedChunkTextD (c : PyVal) : PyStr := pyStrip (rawChunkTextD c)

/-- The or-with-empty-string guard keeps the value or replaces it by the
empty string. -/
theorem pyOr_emptyStr (v : PyVal) :
    pyOr v (.str []) = v ∨ pyOr v (.str []) = .str [] := by
  unfold pyOr
  by_cases h : pyTruthy v = true
  · rw [if_pos h]
    exact Or.inl rfl
  · rw [if_neg h]
    exact Or.inr rfl

/-- A successful chunk text extraction agrees with the total stripped
chunk text function. -/
theorem chunkTextOf_ok_eq (c : PyVal) (t : PyStr) (h : chunkTextOf c = .ok t) :
    t = strippedChunkTextD c := by
  cases c with
  | dict kvs =>
      have h1 : ((Except.ok ((dictGet kvs "chunk_text".toList).getD PyVal.none) :
            Except PyStr PyVal) >>= fun tv =>
          (match pyOr tv (PyVal.str []) with
           | PyVal.str s => Except.ok (pyStrip s)
           | v => Except.error (attrMsg v "strip".toList) : Except PyStr PyStr))
          = Except.ok t := h
      rw [except_ok_bind] at h1
      show t = pyStrip (match dictGet kvs "chunk_text".toList with
                        | some (PyVal.str s) => s
                        | _ => [])
      cases hg : dictGet kvs "chunk_text".toList with
      | none =>
          rw [hg] at h1
          have h2 : (Except.ok (pyStrip ([] : PyStr)) : Except PyStr PyStr) = .ok t := h1
          cases h2
          rfl
      | some v =>
          rw [hg] at h1
          simp only [Option.getD] at h1
          rcases pyOr_emptyStr v with ho | ho <;> rw [ho] at h1
          · cases v with
            | str s =>
                have h2 : (Except.ok (pyStrip s) : Except PyStr PyStr) = .ok t := h1
                cases h2
                rfl
            | none => exact absurd h1 (by simp)
            | bool b => exact absurd h1 (by simp)
            | int n => exact absurd h1 (by simp)
            | float q => exact absurd h1 (by simp)
            | list xs => exact absurd h1 (by simp)
            | dict kvs2 => exact absurd h1 (by simp)
          · have h2 : (Except.ok (pyStrip ([] : PyStr)) : Except PyStr PyStr) = .ok t := h1
            cases h2
            cases v with
            | str s =>
                by_cases hs : s = []
                · rw [hs]
                · exfalso
                  have hts : pyTruthy (.str s) = true := by
                    show (! s.isEmpty) = true
                    simp [hs]
                  rw [pyOr, if_pos hts] at ho
                  exact hs (by injection ho)
            | none => rfl
            | bool b => rfl
            | int n => rfl
            | float q => rfl
            | list xs => rfl
            | dict kvs2 => rfl
  | none => exact absurd h (by simp [chunkTextOf, pyGet])
  | bool b => exact absurd h (by simp [chunkTextOf, pyGet])
  | int n => exact absurd h (by simp [chunkTextOf, pyGet])
  | float q => exact absurd h (by simp [chunkTextOf, pyGet])
  | str s => exact absurd h (by simp [chunkTextOf, pyGet])
  | list xs => exact absurd h (by simp [chunkTextOf, pyGet])

/-- Appending one string to a join extends the join by a separator and the
string. -/
theorem joinSep_append_singleton (sep : PyStr) : ∀ (xs : List PyStr) (t : PyStr),
    joinSep sep (xs ++ [t]) = if xs.isEmpty then t else joinSep sep xs ++ sep ++ t := by
  intro xs
  induction xs with
  | nil => intro t; rfl
  | cons x xs ih =>
      intro t
      cases xs with
      | nil => rfl
      | cons y ys =>
          show x ++ sep ++ joinSep sep ((y :: ys) ++ [t]) = _
          rw [ih t, if_neg (by simp), if_neg (by simp)]
          show x ++ sep ++ (joinSep sep (y :: ys) ++ sep ++ t)
            = (x ++ sep ++ joinSep sep (y :: ys)) ++ sep ++ t
          simp [List.append_assoc]

/-- Budget and cardinality invariant of the selection loop: starting from
a consistent accumulated text within budget and below the cardinality
bound, every successful run ends within the budget and the bound. -/
theorem selectLoop_invariant (maxCtx : Nat) (tk : Int) :
    ∀ (cs : List (ℚ × ℚ × PyVal)) (combined : PyStr) (final sel : List PyVal),
    selectLoop maxCtx tk cs combined final = .ok sel →
    combined = joinSep chunkSEP (final.map strippedChunkTextD) →
    (combined = [] → final = []) →
    combined.length ≤ maxCtx →
    (final.length : Int) < max tk 1 →
    (joinSep chunkSEP (sel.map strippedChunkTextD)).length ≤ maxCtx ∧
      (sel.length : Int) ≤ max tk 1 := by
  intro cs
  induction cs with
  | nil =>
      intro combined final sel h hc _ hlen hcount
      have h2 : (Except.ok final : Except PyStr (List PyVal)) = .ok sel := h
      cases h2
      rw [← hc]
      exact ⟨hlen, le_of_lt hcount⟩
  | cons t cs ih =>
      intro combined final sel h hc hne hlen hcount
      simp only [selectLoop] at h
      cases htext : chunkTextOf t.2.2 with
      | error e =>
          rw [htext, except_error_bind] at h
          exact absurd h (by simp)
      | ok text =>
          rw [htext, except_ok_bind] at h
          by_cases hte : text.isEmpty
          · rw [if_pos hte] at h
            exact ih combined final sel h hc hne hlen hcount
          · rw [if_neg hte] at h
            have htd : text = strippedChunkTextD t.2.2 := chunkTextOf_ok_eq _ _ htext
            have hjoin : joinSep chunkSEP ((final ++ [t.2.2]).map strippedChunkTextD)
                = (if combined.isEmpty then text else combined ++ chunkSEP ++ text) := by
              rw [List.map_append, List.map_singleton, joinSep_append_singleton, ← htd, ← hc]
              by_cases hfe : final = []
              · rw [hfe, hc, hfe]
                rfl
              · have hcne : combined ≠ [] := fun hh => hfe (hne hh)
                rw [if_neg (by simpa using hfe), if_neg (by simpa using hcne)]
            by_cases hover : maxCtx < (if combined.isEmpty then text
                else combined ++ chunkSEP ++ text).length
            · rw [if_pos hover] at h
              have h2 : (Except.ok final : Except PyStr (List PyVal)) = .ok sel := h
              cases h2
              rw [← hc]
              exact ⟨hlen, le_of_lt hcount⟩
            · rw [if_neg hover] at h
              have hcl : (if combined.isEmpty then text
                  else combined ++ chunkSEP ++ text).length ≤ maxCtx := by omega
              by_cases hreach : max tk 1 ≤ (((final ++ [t.2.2]).length : Nat) : Int)
              · rw [if_pos hreach] at h
                have h2 : (Except.ok (final ++ [t.2.2]) : Except PyStr (List PyVal))
                    = .ok sel := h
                cases h2
                refine ⟨by rw [hjoin]; exact hcl, ?_⟩
                have : ((final ++ [t.2.2]).length : Int) = (final.length : Int) + 1 := by
                  simp
                omega
              · rw [if_neg hreach] at h
                refine ih _ _ _ h hjoin.symm ?_ hcl ?_
                · intro h0
                  exfalso
                  by_cases hce : combined.isEmpty
                  · rw [if_pos hce] at h0
                    rw [h0] at hte
                    exact hte rfl
                  · rw [if_neg hce] at h0
                    have := congrArg List.length h0
                    simp at this
                    rw [this.1] at hce
                    exact hce rfl
                · have : ((final ++ [t.2.2]).length : Int) = (final.length : Int) + 1 := by
                    simp
                  omega

/-- Candidate with whitespace-padded chunk text used for the C2
counterexample and witness. -/
def c2chunk : PyVal :=
  .dict [("chunk_text".toList, .str "  a  ".toList), ("similarity".toList, .float 1)]

/-- C2 counterexample: with top_k = 0 and a budget of 3 the selector still
selects one chunk, exceeding the requested top_k, and the selected raw
chunk_text values joined by the separator have length 5, exceeding the
budget (only the stripped text is counted by the loop). -/
theorem select_chunks_counterexample :
    _select_chunks 3 [c2chunk] 0 [] = .ok [c2chunk]
    ∧ ¬ ((([c2chunk].length : Nat) : Int) ≤ 0)
    ∧ (joinSep chunkSEP ([c2chunk].map rawChunkTextD)).length = 5
    ∧ ¬ ((5 : Nat) ≤ 3) :=
  ⟨rfl, by decide, rfl, by decide⟩

/-- C2 amended: for every candidate list, top_k and normalized query, when
selection succeeds the stripped chunk_text values of the Selected Set,
joined by the separator, never exceed MAX_CONTEXT_CHARS, and the number of
selected chunks is at most max(top_k, 1). -/
theorem select_chunks_budget_and_cardinality (maxCtx : Nat) (chunks : List PyVal)
    (tk : Int) (nq : PyStr) (sel : List PyVal)
    (h : _select_chunks maxCtx chunks tk nq = .ok sel) :
    (joinSep chunkSEP (sel.map strippedChunkTextD)).length ≤ maxCtx ∧
      (sel.length : Int) ≤ max tk 1 := by
  unfold _select_chunks at h
  by_cases hce : chunks.isEmpty
  · rw [if_pos hce] at h
    have h2 : (Except.ok ([] : List PyVal) : Except PyStr (List PyVal)) = .ok sel := h
    cases h2
    refine ⟨by simp [joinSep], ?_⟩
    have := le_max_right tk 1
    simp
  · rw [if_neg hce] at h
    cases hs : scoreChunks nq chunks with
    | error e =>
        rw [hs, except_error_bind] at h
        exact absurd h (by simp)
    | ok scored =>
        rw [hs, except_ok_bind] at h
        refine selectLoop_invariant maxCtx tk (sortScored scored) [] [] sel h rfl
          (fun _ => rfl) (by simp) ?_
        have := le_max_right tk 1
        simp

/-- C2 witness: a concrete selection within budget and cardinality. -/
theorem select_chunks_budget_witness :
    (joinSep chunkSEP ([c2chunk].map strippedChunkTextD)).length ≤ 10 ∧
      (([c2chunk].length : Nat) : Int) ≤ max 5 1 :=
  select_chunks_budget_and_cardinality 10 [c2chunk] 5 [] [c2chunk] rfl

/-- A member of a joined list is an infix of the join. -/
theorem mem_joinSep_within (sep : PyStr) : ∀ (ts : List PyStr) (t : PyStr),
    t ∈ ts → t <:+: joinSep sep ts := by
  intro ts
  induction ts with
  | nil => intro t ht; simp at ht
  | cons u ts ih =>
      intro t ht
      cases ts with
      | nil =>
          rw [List.mem_singleton] at ht
          subst ht
          exact List.infix_rfl
      | cons v vs =>
          rcases List.mem_cons.mp ht with rfl | ht2
          · show t <:+: t ++ sep ++ joinSep sep (v :: vs)
            rw [List.append_assoc]
            exact List.IsPrefix.isInfix (List.prefix_append t _)
          · show t <:+: u ++ sep ++ joinSep sep (v :: vs)
            rw [List.append_assoc]
            exact (ih t ht2).trans
              (List.IsSuffix.isInfix ((List.suffix_append sep _).trans
                (List.suffix_append u _)))

/-- Shape of a successful phase-1 block: the fixed labeled lines joined by
newlines. -/
theorem chunkBlock_ok_shape (i : Nat) (c : PyVal) (b : PyStr)
    (h : chunkBlock i c = .ok b) :
    ∃ nid title fn link score ctext,
      b = joinSep "\n".toList
        [ "--- CONTEXT CHUNK ".toList ++ natDigits i ++ " ---".toList,
          "NOTICE_ID: ".toList ++ nid,
          "TITLE: ".toList ++ title,
          "FILENAME: ".toList ++ fn,
          "SOURCE_LINK: ".toList ++ link,
          "SCORE: ".toList ++ score,
          [],
          "CHUNK_TEXT:".toList,
          ctext,
          "--- END CONTEXT CHUNK ".toList ++ natDigits i ++ " ---".toList ] := by
  cases c with
  | dict kvs =>
      simp only [chunkBlock, pyGet, except_ok_bind] at h
      cases hv : pyOr ((dictGet kvs "chunk_text".toList).getD PyVal.none) (PyVal.str []) with
      | str s =>
          rw [hv] at h
          simp only [except_ok_bind] at h
          cases hf : pyFormatFixed4 ((dictGet kvs "similarity".toList).getD (.float 0)) with
          | error e =>
              rw [hf, except_error_bind] at h
              exact absurd h (by simp)
          | ok score =>
              rw [hf, except_ok_bind] at h
              cases h
              exact ⟨_, _, _, _, score, pyStrip s, rfl⟩
      | none => rw [hv] at h; exact absurd h (by simp)
      | bool b2 => rw [hv] at h; exact absurd h (by simp)
      | int n => rw [hv] at h; exact absurd h (by simp)
      | float q => rw [hv] at h; exact absurd h (by simp)
      | list xs => rw [hv] at h; exact absurd h (by simp)
      | dict kvs2 => rw [hv] at h; exact absurd h (by simp)
  | none => exact absurd h (by simp [chunkBlock, pyGet])
  | bool b2 => exact absurd h (by simp [chunkBlock, pyGet])
  | int n => exact absurd h (by simp [chunkBlock, pyGet])
  | float q => exact absurd h (by simp [chunkBlock, pyGet])
  | str s => exact absurd h (by simp [chunkBlock, pyGet])
  | list xs => exact absurd h (by simp [chunkBlock, pyGet])

/-- Every successful phase-1 block carries the six fixed field labels. -/
theorem chunkBlock_labels (i : Nat) (c : PyVal) (b : PyStr)
    (h : chunkBlock i c = .ok b) :
    "NOTICE_ID: ".toList <:+: b ∧ "TITLE: ".toList <:+: b
    ∧ "FILENAME: ".toList <:+: b ∧ "SOURCE_LINK: ".toList <:+: b
    ∧ "SCORE: ".toList <:+: b ∧ "CHUNK_TEXT:".toList <:+: b := by
  obtain ⟨nid, title, fn, link, score, ctext, rfl⟩ := chunkBlock_ok_shape i c b h
  refine ⟨?_, ?_, ?_, ?_, ?_, ?_⟩
  · exact (List.IsPrefix.isInfix (List.prefix_append _ nid)).trans
      (mem_joinSep_within _ _ _ (by simp))
  · exact (List.IsPrefix.isInfix (List.prefix_append _ title)).trans
      (mem_joinSep_within _ _ _ (by simp))
  · exact (List.IsPrefix.isInfix (List.prefix_append _ fn)).trans
      (mem_joinSep_within _ _ _ (by simp))
  · exact (List.IsPrefix.isInfix (List.prefix_append _ link)).trans
      (mem_joinSep_within _ _ _ (by simp))
  · exact (List.IsPrefix.isInfix (List.prefix_append _ score)).trans
      (mem_joinSep_within _ _ _ (by simp))
  · exact (mem_joinSep_within _ _ "CHUNK_TEXT:".toList (by simp))

/-- The phase-1 loop yields one block per chunk, each a successful chunk
block. -/
theorem chunkBlocksFrom_facts : ∀ (cs : List PyVal) (i : Nat) (bs : List PyStr),
    chunkBlocksFrom i cs = .ok bs →
    bs.length = cs.length ∧ ∀ b ∈ bs, ∃ j c, chunkBlock j c = .ok b := by
  intro cs
  induction cs with
  | nil =>
      intro i bs h
      have h2 : (Except.ok ([] : List PyStr) : Except PyStr (List PyStr)) = .ok bs := h
      cases h2
      exact ⟨rfl, by simp⟩
  | cons c cs ih =>
      intro i bs h
      simp only [chunkBlocksFrom] at h
      cases hb : chunkBlock i c with
      | error e =>
          rw [hb, except_error_bind] at h
          exact absurd h (by simp)
      | ok b =>
          rw [hb, except_ok_bind] at h
          cases hr : chunkBlocksFrom (i + 1) cs with
          | error e =>
              rw [hr, except_error_bind] at h
              exact absurd h (by simp)
          | ok rest =>
              rw [hr, except_ok_bind] at h
              cases h
              obtain ⟨hlen, hall⟩ := ih (i + 1) rest hr
              refine ⟨by simp [hlen], ?_⟩
              intro b2 hb2
              rcases List.mem_cons.mp hb2 with rfl | hb3
              · exact ⟨i, c, hb⟩
              · exact hall b2 hb3

/-- Total length of a list of strings. -/
def sumLens (bs : List PyStr) : Nat := (bs.map List.length).sum

/-- A join is no longer than its parts plus one separator per part. -/
theorem joinSep_length_le (sep : PyStr) : ∀ ts : List PyStr,
    (joinSep sep ts).length ≤ sumLens ts + sep.length * ts.length := by
  intro ts
  induction ts with
  | nil => simp [joinSep, sumLens]
  | cons t ts ih =>
      cases ts with
      | nil => simp [joinSep, sumLens]
      | cons u us =>
          show (t ++ sep ++ joinSep sep (u :: us)).length ≤ _
          have hm : sep.length * ((u :: us).length + 1)
              = sep.length * (u :: us).length + sep.length := by ring
          simp only [List.length_append, sumLens, List.map_cons, List.sum_cons,
            List.length_cons] at *
          omega

/-- Budget invariant of the phase-2 loop: the phase-1 length plus the
total length of emitted blocks stays within the larger of the phase-1
length and the budget, and at most one block is emitted per notice. -/
theorem ocrLoop_invariant (maxCtx trunc : Nat) (S : Nat) :
    ∀ (items : List (PyVal × NoticeInfo)) (j used : Nat) (blocks out : List PyStr),
    ocrLoop maxCtx trunc j items used blocks = .ok out →
    used = S + sumLens blocks →
    used ≤ max S maxCtx →
    S + sumLens out ≤ max S maxCtx ∧ out.length ≤ blocks.length + items.length := by
  intro items
  induction items with
  | nil =>
      intro j used blocks out h hused hb
      have h2 : (Except.ok blocks : Except PyStr (List PyStr)) = .ok out := h
      cases h2
      omega
  | cons kv rest ih =>
      intro j used blocks out h hused hb
      simp only [ocrLoop] at h
      by_cases ht : pyTruthy (pyOr kv.2.ocr (.str [])) = true
      · rw [if_neg (by simp [ht])] at h
        have tail : ∀ part : PyVal,
            (if maxCtx < used + (noticeBlock j kv.1 kv.2 part).length then
              Except.ok blocks
             else
              ocrLoop maxCtx trunc (j + 1) rest
                (used + (noticeBlock j kv.1 kv.2 part).length)
                (blocks ++ [noticeBlock j kv.1 kv.2 part])) = .ok out →
            S + sumLens out ≤ max S maxCtx ∧
              out.length ≤ blocks.length + (kv :: rest).length := by
          intro part hcase
          by_cases hover : maxCtx < used + (noticeBlock j kv.1 kv.2 part).length
          · rw [if_pos hover] at hcase
            have h2 : (Except.ok blocks : Except PyStr (List PyStr)) = .ok out := hcase
            cases h2
            refine ⟨by omega, by simp⟩
          · rw [if_neg hover] at hcase
            have hsum : used + (noticeBlock j kv.1 kv.2 part).length
                = S + sumLens (blocks ++ [noticeBlock j kv.1 kv.2 part]) := by
              simp only [sumLens, List.map_append, List.map_cons, List.map_nil,
                List.sum_append, List.sum_cons, List.sum_nil, hused]
              omega
            have hle : used + (noticeBlock j kv.1 kv.2 part).length ≤ max S maxCtx := by
              have : maxCtx ≤ max S maxCtx := le_max_right S maxCtx
              omega
            obtain ⟨h1, h2⟩ := ih (j + 1) _ _ out hcase hsum hle
            refine ⟨h1, ?_⟩
            rw [List.length_append, List.length_singleton] at h2
            simp only [List.length_cons]
            omega
        by_cases htr : trunc > 0
        · rw [if_pos htr] at h
          cases hp : pySliceTake trunc (pyOr kv.2.ocr (.str [])) with
          | error e =>
              rw [hp, except_error_bind] at h
              exact absurd h (by simp)
          | ok part =>
              rw [hp, except_ok_bind] at h
              exact tail part h
        · rw [if_neg htr, except_ok_bind] at h
          exact tail _ h
      · rw [if_pos (by simp [ht])] at h
        obtain ⟨h1, h2⟩ := ih (j + 1) used blocks out h hused hb
        exact ⟨h1, by simp only [List.length_cons]; omega⟩

/-- The grouping step produces at most one entry per candidate beyond its
accumulator. -/
theorem groupNotices_length : ∀ (cs : List PyVal) (acc : List (PyVal × NoticeInfo))
    (out : List (PyVal × NoticeInfo)),
    groupNotices cs acc = .ok out → out.length ≤ acc.length + cs.length := by
  intro cs
  induction cs with
  | nil =>
      intro acc out h
      have h2 : (Except.ok acc : Except PyStr (List (PyVal × NoticeInfo))) = .ok out := h
      cases h2
      simp
  | cons c cs ih =>
      intro acc out h
      cases c with
      | dict kvs =>
          simp only [groupNotices, pyGet, except_ok_bind] at h
          split at h
          · exact absurd h (by simp)
          · split at h
            · have h2 := ih _ out h
              rw [List.length_append, List.length_singleton] at h2
              simp only [List.length_cons]
              omega
            · next kv hfind =>
                cases hgt : pyGtB ((dictGet kvs "similarity".toList).getD (.float 0))
                    kv.2.max_similarity with
                | error e =>
                    rw [hgt, except_error_bind] at h
                    exact absurd h (by simp)
                | ok gt =>
                    rw [hgt, except_ok_bind] at h
                    have h2 := ih _ out h
                    cases gt with
                    | true =>
                        rw [if_pos rfl, List.length_map] at h2
                        simp only [List.length_cons]
                        omega
                    | false =>
                        rw [if_neg (by simp)] at h2
                        simp only [List.length_cons]
                        omega
      | none => exact absurd h (by simp [groupNotices, pyGet])
      | bool b => exact absurd h (by simp [groupNotices, pyGet])
      | int n => exact absurd h (by simp [groupNotices, pyGet])
      | float q => exact absurd h (by simp [groupNotices, pyGet])
      | str s => exact absurd h (by simp [groupNotices, pyGet])
      | list xs => exact absurd h (by simp [groupNotices, pyGet])

/-- Inserting into the descending notice order adds one element. -/
theorem insertNoticeDesc_length (a : PyVal × NoticeInfo) :
    ∀ l : List (PyVal × NoticeInfo), (insertNoticeDesc a l).length = l.length + 1 := by
  intro l
  induction l with
  | nil => rfl
  | cons b bs ih =>
      unfold insertNoticeDesc
      by_cases hc : (pyNumQ a.2.max_similarity).getD 0 ≤ (pyNumQ b.2.max_similarity).getD 0
      · rw [if_pos hc]
        simp [ih]
      · rw [if_neg hc]
        simp

/-- The sorting step preserves the number of notices. -/
theorem sortNoticesByMaxSim_length (items out : List (PyVal × NoticeInfo))
    (h : sortNoticesByMaxSim items = .ok out) : out.length = items.length := by
  unfold sortNoticesByMaxSim at h
  by_cases hall : items.all (fun kv => (pyNumQ kv.2.max_similarity).isSome) = true
  · rw [if_pos hall] at h
    have h2 : (Except.ok (items.foldl (fun acc kv => insertNoticeDesc kv acc) []) :
        Except PyStr (List (PyVal × NoticeInfo))) = .ok out := h
    cases h2
    have key : ∀ (l acc : List (PyVal × NoticeInfo)),
        (l.foldl (fun acc kv => insertNoticeDesc kv acc) acc).length
          = acc.length + l.length := by
      intro l
      induction l with
      | nil => simp
      | cons x xs ih =>
          intro acc
          simp only [List.foldl_cons]
          rw [ih (insertNoticeDesc x acc), insertNoticeDesc_length]
          simp only [List.length_cons]
          omega
    rw [key items []]
    simp
  · rw [if_neg hall] at h
    exact absurd h (by simp)

/-- C9 amended: when context assembly succeeds, the phase-1 section has
exactly one block per selected chunk, each carrying the six fixed field
labels, and the total assembled context length is at most the larger of
the phase-1 section length and MAX_CONTEXT_CHARS, plus two separator
characters per selected chunk plus two; the phase-1 section itself is not
bounded by MAX_CONTEXT_CHARS plus the per-notice truncation allowance,
since labels and metadata fields are not counted against the selection
budget. -/
theorem assemble_context_blocks_and_budget (maxCtx trunc : Nat) (sel : List PyVal)
    (ctx : PyStr) (blocks : List PyStr)
    (h : assembleContext maxCtx trunc sel = .ok ctx)
    (hb : chunkBlocksFrom 1 sel = .ok blocks) :
    blocks.length = sel.length ∧
    (∀ b ∈ blocks,
      "NOTICE_ID: ".toList <:+: b ∧ "TITLE: ".toList <:+: b
      ∧ "FILENAME: ".toList <:+: b ∧ "SOURCE_LINK: ".toList <:+: b
      ∧ "SCORE: ".toList <:+: b ∧ "CHUNK_TEXT:".toList <:+: b) ∧
    ctx.length ≤ max (joinSep "\n\n".toList blocks).length maxCtx
      + 2 * (sel.length + 1) := by
  unfold assembleContext at h
  rw [hb, except_ok_bind] at h
  cases hg : groupNotices sel [] with
  | error e =>
      rw [hg, except_error_bind] at h
      exact absurd h (by simp)
  | ok notices =>
      rw [hg, except_ok_bind] at h
      cases hs : sortNoticesByMaxSim notices with
      | error e =>
          rw [hs, except_error_bind] at h
          exact absurd h (by simp)
      | ok ordered =>
          rw [hs, except_ok_bind] at h
          cases ho : ocrLoop maxCtx trunc 1 ordered (joinSep "\n\n".toList blocks).length []
          with
          | error e =>
              rw [ho, except_error_bind] at h
              exact absurd h (by simp)
          | ok out =>
              rw [ho, except_ok_bind] at h
              obtain ⟨hlen, hall⟩ := chunkBlocksFrom_facts sel 1 blocks hb
              have hinv := ocrLoop_invariant maxCtx trunc
                (joinSep "\n\n".toList blocks).length ordered 1
                (joinSep "\n\n".toList blocks).length [] out ho
                (by simp [sumLens]) (le_max_left _ maxCtx)
              have hcount : out.length ≤ sel.length := by
                have h1 := sortNoticesByMaxSim_length notices ordered hs
                have h2 := groupNotices_length sel [] notices hg
                have h3 := hinv.2
                simp at h2 h3
                omega
              refine ⟨hlen, ?_, ?_⟩
              · intro b hbin
                obtain ⟨j, c, hbc⟩ := hall b hbin
                exact chunkBlock_labels j c b hbc
              · have h2 : (Except.ok (if out.isEmpty then joinSep "\n\n".toList blocks
                    else joinSep "\n\n".toList blocks ++ "\n\n".toList
                      ++ joinSep "\n\n".toList out) : Except PyStr PyStr) = .ok ctx := h
                cases h2
                by_cases hoe : out.isEmpty
                · rw [if_pos hoe]
                  have := le_max_left (joinSep "\n\n".toList blocks).length maxCtx
                  omega
                · rw [if_neg hoe]
                  have hjl := joinSep_length_le "\n\n".toList out
                  simp only [List.length_append]
                  have hsep : ("\n\n".toList : PyStr).length = 2 := rfl
                  rw [hsep] at hjl
                  omega

/-- Candidate with a long title used by the C9 counterexample: the phase-1
labels and metadata are not counted against the selection budget. -/
def c9chunk : PyVal :=
  .dict [("chunk_text".toList, .str "a".toList), ("similarity".toList, .float 1),
         ("notice_title".toList,
          .str "Extended notice title with many additional words to inflate the block".toList)]

set_option maxRecDepth 4000 in
/-- C9 counterexample: with MAX_CONTEXT_CHARS 10 and NOTICE_OCR_TRUNC 5,
one selected chunk with a one-character text but a long title assembles to
a context of 211 characters, far beyond the budget plus the per-notice
truncation allowance. -/
theorem assemble_context_counterexample :
    (assembleContext 10 5 [c9chunk]).map List.length = .ok 211
    ∧ ¬ ((211 : Nat) ≤ 10 + 5 * 1) :=
  ⟨by with_unfolding_all decide, by decide⟩

/-- Minimal candidate used by the C9 witness. -/
def c9wchunk : PyVal :=
  .dict [("chunk_text".toList, .str "a".toList), ("similarity".toList, .float 1)]

set_option maxRecDepth 4000 in
/-- C9 witness: a concrete assembly with one block carrying all labels and
a total length within the amended bound. -/
theorem assemble_context_blocks_witness :
    ([("--- CONTEXT CHUNK 1 ---\nNOTICE_ID: UNKNOWN\nTITLE: \nFILENAME: unknown\nSOURCE_LINK: N/A\nSCORE: 1.0000\n\nCHUNK_TEXT:\na\n--- END CONTEXT CHUNK 1 ---".toList)] :
        List PyStr).length = [c9wchunk].length ∧
    (∀ b ∈ ([("--- CONTEXT CHUNK 1 ---\nNOTICE_ID: UNKNOWN\nTITLE: \nFILENAME: unknown\nSOURCE_LINK: N/A\nSCORE: 1.0000\n\nCHUNK_TEXT:\na\n--- END CONTEXT CHUNK 1 ---".toList)] : List PyStr),
      "NOTICE_ID: ".toList <:+: b ∧ "TITLE: ".toList <:+: b
      ∧ "FILENAME: ".toList <:+: b ∧ "SOURCE_LINK: ".toList <:+: b
      ∧ "SCORE: ".toList <:+: b ∧ "CHUNK_TEXT:".toList <:+: b) ∧
    ("--- CONTEXT CHUNK 1 ---\nNOTICE_ID: UNKNOWN\nTITLE: \nFILENAME: unknown\nSOURCE_LINK: N/A\nSCORE: 1.0000\n\nCHUNK_TEXT:\na\n--- END CONTEXT CHUNK 1 ---".toList).length
      ≤ max (joinSep "\n\n".toList
          [("--- CONTEXT CHUNK 1 ---\nNOTICE_ID: UNKNOWN\nTITLE: \nFILENAME: unknown\nSOURCE_LINK: N/A\nSCORE: 1.0000\n\nCHUNK_TEXT:\na\n--- END CONTEXT CHUNK 1 ---".toList)]).length
          100 + 2 * ([c9wchunk].length + 1) :=
  assemble_context_blocks_and_budget 100 5 [c9wchunk] _ _
    (by with_unfolding_all decide) (by with_unfolding_all decide)

/-- Values acceptable in the similarity field of a well-formed candidate:
Python numbers (bool, int, float). -/
def numValOk : PyVal → Bool
  | .bool _ => true
  | .int _ => true
  | .float _ => true
  | _ => false

/-- Values acceptable in the string-like fields of a well-formed
candidate: None or a string. -/
def strValOk : PyVal → Bool
  | .none => true
  | .str _ => true
  | _ => false

/-- Optional-field variant of `numValOk`. -/
def numFieldOk : Option PyVal → Bool
  | Option.none => true
  | some v => numValOk v

/-- Optional-field variant of `strValOk`. -/
def strOptFieldOk : Option PyVal → Bool
  | Option.none => true
  | some v => strValOk v

/-- Well-formed candidate chunk: a dictionary whose similarity field (when
present) is a number and whose chunk_text, notice_title, notice_ocr and
notice_id fields (when present) are None or strings.  Exactly the shape
the pipeline processes without raising. -/
def wellFormedChunk : PyVal → Bool
  | .dict kvs =>
      numFieldOk (dictGet kvs "similarity".toList)
      && strOptFieldOk (dictGet kvs "chunk_text".toList)
      && strOptFieldOk (dictGet kvs "notice_title".toList)
      && strOptFieldOk (dictGet kvs "notice_ocr".toList)
      && strOptFieldOk (dictGet kvs "notice_id".toList)
  | _ => false

/-- Well-formed retriever payload: its chunks field is absent, falsy, or a
list of well-formed candidate chunks. -/
def wellFormedData : PyVal → Bool
  | .dict kvs =>
      match dictGet kvs "chunks".toList with
      | Option.none => true
      | some (.list cs) => cs.all wellFormedChunk
      | some v => !pyTruthy v
  | _ => true

/-- Converting an or-guarded number with float() succeeds. -/
theorem pyFloatOf_pyOr_num (v : PyVal) (h : numValOk v = true) :
    ∃ q, pyFloatOf (pyOr v (.float 0)) = .ok q := by
  unfold pyOr
  by_cases ht : pyTruthy v = true
  · rw [if_pos ht]
    cases v with
    | bool b => exact ⟨_, rfl⟩
    | int n => exact ⟨_, rfl⟩
    | float q => exact ⟨_, rfl⟩
    | none => simp [numValOk] at h
    | str s => simp [numValOk] at h
    | list xs => simp [numValOk] at h
    | dict kvs => simp [numValOk] at h
  · rw [if_neg ht]
    exact ⟨0, rfl⟩

/-- The or-empty-string guard turns a None-or-string value into a
string. -/
theorem pyOr_empty_str_of_strValOk (tv : PyVal) (h : strValOk tv = true) :
    ∃ s, pyOr tv (.str []) = .str s := by
  cases tv with
  | none => exact ⟨[], rfl⟩
  | str s =>
      unfold pyOr
      by_cases ht : pyTruthy (PyVal.str s) = true
      · rw [if_pos ht]
        exact ⟨s, rfl⟩
      · rw [if_neg ht]
        exact ⟨[], rfl⟩
  | bool b => simp [strValOk] at h
  | int n => simp [strValOk] at h
  | float q => simp [strValOk] at h
  | list xs => simp [strValOk] at h
  | dict kvs => simp [strValOk] at h

/-- Scoring a well-formed candidate succeeds and keeps the candidate. -/
theorem scoreChunk_wf (nq : PyStr) (c : PyVal) (h : wellFormedChunk c = true) :
    ∃ t, scoreChunk nq c = .ok t ∧ t.2.2 = c := by
  cases c with
  | dict kvs =>
      unfold wellFormedChunk at h
      simp only [Bool.and_eq_true] at h
      obtain ⟨⟨⟨⟨hsim, htext⟩, htitle⟩, hocr⟩, hnid⟩ := h
      have hsimval : numValOk ((dictGet kvs "similarity".toList).getD (.float 0)) = true := by
        cases hg : dictGet kvs "similarity".toList with
        | none => rfl
        | some v =>
            rw [hg] at hsim
            exact hsim
      obtain ⟨qs, hqs⟩ := pyFloatOf_pyOr_num _ hsimval
      have htval : strValOk ((dictGet kvs "notice_title".toList).getD PyVal.none) = true := by
        cases hg : dictGet kvs "notice_title".toList with
        | none => rfl
        | some v =>
            rw [hg] at htitle
            exact htitle
      obtain ⟨s, hs⟩ := pyOr_empty_str_of_strValOk _ htval
      refine ⟨(qs + title_match_boost s nq, qs, .dict kvs), ?_, rfl⟩
      simp only [scoreChunk, pyGet, except_ok_bind]
      rw [hqs, except_ok_bind, hs]
  | none => simp [wellFormedChunk] at h
  | bool b => simp [wellFormedChunk] at h
  | int n => simp [wellFormedChunk] at h
  | float q => simp [wellFormedChunk] at h
  | str s => simp [wellFormedChunk] at h
  | list xs => simp [wellFormedChunk] at h

/-- Scoring a list of well-formed candidates succeeds, and every scored
triple carries one of the candidates. -/
theorem scoreChunks_wf (nq : PyStr) : ∀ cs : List PyVal,
    (∀ c ∈ cs, wellFormedChunk c = true) →
    ∃ scored, scoreChunks nq cs = .ok scored ∧ ∀ t ∈ scored, t.2.2 ∈ cs := by
  intro cs
  induction cs with
  | nil => intro _; exact ⟨[], rfl, by simp⟩
  | cons c cs ih =>
      intro h
      obtain ⟨t, ht, htc⟩ := scoreChunk_wf nq c (h c (List.mem_cons_self c cs))
      obtain ⟨scored, hs, hmem⟩ := ih (fun c2 hc2 => h c2 (List.mem_cons_of_mem c hc2))
      refine ⟨t :: scored, ?_, ?_⟩
      · simp only [scoreChunks]
        rw [ht, except_ok_bind, hs, except_ok_bind]
      · intro u hu
        rcases List.mem_cons.mp hu with rfl | hu2
        · rw [htc]
          exact List.mem_cons_self c cs
        · exact List.mem_cons_of_mem c (hmem u hu2)

/-- Inserting keeps exactly the inserted element and the old ones. -/
theorem insertScoredDesc_mem (a : ℚ × ℚ × PyVal) : ∀ l t,
    t ∈ insertScoredDesc a l → t = a ∨ t ∈ l := by
  intro l
  induction l with
  | nil =>
      intro t ht
      simp only [insertScoredDesc, List.mem_singleton] at ht
      exact Or.inl ht
  | cons b bs ih =>
      intro t ht
      unfold insertScoredDesc at ht
      by_cases hc : a.1 ≤ b.1
      · rw [if_pos hc] at ht
        rcases List.mem_cons.mp ht with rfl | ht2
        · exact Or.inr (List.mem_cons_self t bs)
        · rcases ih t ht2 with h | h
          · exact Or.inl h
          · exact Or.inr (List.mem_cons_of_mem b h)
      · rw [if_neg hc] at ht
        rcases List.mem_cons.mp ht with rfl | ht2
        · exact Or.inl rfl
        · exact Or.inr ht2

/-- Sorting yields a subset of the input triples. -/
theorem sortScored_mem (l : List (ℚ × ℚ × PyVal)) (t : ℚ × ℚ × PyVal)
    (h : t ∈ sortScored l) : t ∈ l := by
  have key : ∀ (l2 : List (ℚ × ℚ × PyVal)) (acc : List (ℚ × ℚ × PyVal)) (u : ℚ × ℚ × PyVal),
      u ∈ l2.foldl (fun acc t => insertScoredDesc t acc) acc → u ∈ acc ∨ u ∈ l2 := by
    intro l2
    induction l2 with
    | nil => intro acc u hu; exact Or.inl hu
    | cons x xs ih =>
        intro acc u hu
        rcases ih (insertScoredDesc x acc) u hu with h2 | h2
        · rcases insertScoredDesc_mem x acc u h2 with rfl | h3
          · exact Or.inr (List.mem_cons_self u xs)
          · exact Or.inl h3
        · exact Or.inr (List.mem_cons_of_mem x h2)
  rcases key l [] t h with h2 | h2
  · simp at h2
  · exact h2

/-- Extracting the stripped chunk text of a well-formed candidate
succeeds. -/
theorem chunkTextOf_wf (c : PyVal) (h : wellFormedChunk c = true) :
    ∃ t, chunkTextOf c = .ok t := by
  cases c with
  | dict kvs =>
      unfold wellFormedChunk at h
      simp only [Bool.and_eq_true] at h
      obtain ⟨⟨⟨⟨_, htext⟩, _⟩, _⟩, _⟩ := h
      have htval : strValOk ((dictGet kvs "chunk_text".toList).getD PyVal.none) = true := by
        cases hg : dictGet kvs "chunk_text".toList with
        | none => rfl
        | some v =>
            rw [hg] at htext
            exact htext
      obtain ⟨s, hs⟩ := pyOr_empty_str_of_strValOk _ htval
      refine ⟨pyStrip s, ?_⟩
      simp only [chunkTextOf, pyGet, except_ok_bind]
      rw [hs]
  | none => simp [wellFormedChunk] at h
  | bool b => simp [wellFormedChunk] at h
  | int n => simp [wellFormedChunk] at h
  | float q => simp [wellFormedChunk] at h
  | str s => simp [wellFormedChunk] at h
  | list xs => simp [wellFormedChunk] at h

/-- The selection loop never raises when every remaining candidate is
well-formed, and selects only carried or remaining candidates. -/
theorem selectLoop_wf (maxCtx : Nat) (tk : Int) :
    ∀ (cs : List (ℚ × ℚ × PyVal)) (combined : PyStr) (final : List PyVal),
    (∀ t ∈ cs, wellFormedChunk t.2.2 = true) →
    ∃ sel, selectLoop maxCtx tk cs combined final = .ok sel ∧
      ∀ c ∈ sel, c ∈ final ∨ ∃ t ∈ cs, c = t.2.2 := by
  intro cs
  induction cs with
  | nil =>
      intro combined final _
      exact ⟨final, rfl, fun c hc => Or.inl hc⟩
  | cons t cs ih =>
      intro combined final h
      obtain ⟨text, htext⟩ := chunkTextOf_wf t.2.2 (h t (List.mem_cons_self t cs))
      have hrec := ih (if combined.isEmpty then text else combined ++ chunkSEP ++ text)
        (final ++ [t.2.2]) (fun u hu => h u (List.mem_cons_of_mem t hu))
      have hrec2 := ih combined final (fun u hu => h u (List.mem_cons_of_mem t hu))
      by_cases hte : text.isEmpty
      · obtain ⟨sel, hsel, hmem⟩ := hrec2
        refine ⟨sel, ?_, ?_⟩
        · simp only [selectLoop]
          rw [htext, except_ok_bind, if_pos hte]
          exact hsel
        · intro c hc
          rcases hmem c hc with h2 | ⟨u, hu, h3⟩
          · exact Or.inl h2
          · exact Or.inr ⟨u, List.mem_cons_of_mem t hu, h3⟩
      · by_cases hover : maxCtx <
            (if combined.isEmpty then text else combined ++ chunkSEP ++ text).length
        · refine ⟨final, ?_, fun c hc => Or.inl hc⟩
          simp only [selectLoop]
          rw [htext, except_ok_bind, if_neg hte, if_pos hover]
        · by_cases hreach : max tk 1 ≤ (((final ++ [t.2.2]).length : Nat) : Int)
          · refine ⟨final ++ [t.2.2], ?_, ?_⟩
            · simp only [selectLoop]
              rw [htext, except_ok_bind, if_neg hte, if_neg hover, if_pos hreach]
            · intro c hc
              rcases List.mem_append.mp hc with h2 | h2
              · exact Or.inl h2
              · rw [List.mem_singleton] at h2
                exact Or.inr ⟨t, List.mem_cons_self t cs, h2⟩
          · obtain ⟨sel, hsel, hmem⟩ := hrec
            refine ⟨sel, ?_, ?_⟩
            · simp only [selectLoop]
              rw [htext, except_ok_bind, if_neg hte, if_neg hover, if_neg hreach]
              exact hsel
            · intro c hc
              rcases hmem c hc with h2 | ⟨u, hu, h3⟩
              · rcases List.mem_append.mp h2 with h4 | h4
                · exact Or.inl h4
                · rw [List.mem_singleton] at h4
                  exact Or.inr ⟨t, List.mem_cons_self t cs, h4⟩
              · exact Or.inr ⟨u, List.mem_cons_of_mem t hu, h3⟩

/-- Selection never raises on well-formed candidates and selects a subset
of them. -/
theorem select_chunks_wf (maxCtx : Nat) (chunks : List PyVal) (tk : Int) (nq : PyStr)
    (h : ∀ c ∈ chunks, wellFormedChunk c = true) :
    ∃ sel, _select_chunks maxCtx chunks tk nq = .ok sel ∧
      ∀ c ∈ sel, c ∈ chunks := by
  unfold _select_chunks
  by_cases hce : chunks.isEmpty
  · rw [if_pos hce]
    exact ⟨[], rfl, by simp⟩
  · rw [if_neg hce]
    obtain ⟨scored, hs, hmem⟩ := scoreChunks_wf nq chunks h
    rw [hs, except_ok_bind]
    obtain ⟨sel, hsel, hsmem⟩ := selectLoop_wf maxCtx tk (sortScored scored) [] []
      (fun t ht => h t.2.2 (hmem t (sortScored_mem scored t ht)))
    refine ⟨sel, hsel, ?_⟩
    intro c hc
    rcases hsmem c hc with h2 | ⟨u, hu, h3⟩
    · simp at h2
    · rw [h3]
      exact hmem u (sortScored_mem scored u hu)

/-- The or-guard with any string default turns a None-or-string value into
a string. -/
theorem pyOr_str_of_strValOk (tv : PyVal) (d : PyStr) (h : strValOk tv = true) :
    ∃ s, pyOr tv (.str d) = .str s := by
  cases tv with
  | none => exact ⟨d, rfl⟩
  | str s =>
      unfold pyOr
      by_cases ht : pyTruthy (PyVal.str s) = true
      · rw [if_pos ht]
        exact ⟨s, rfl⟩
      · rw [if_neg ht]
        exact ⟨d, rfl⟩
  | bool b => simp [strValOk] at h
  | int n => simp [strValOk] at h
  | float q => simp [strValOk] at h
  | list xs => simp [strValOk] at h
  | dict kvs => simp [strValOk] at h

/-- Numbers have a numeric value. -/
theorem pyNumQ_isSome_of_numValOk (v : PyVal) (h : numValOk v = true) :
    (pyNumQ v).isSome = true := by
  cases v <;> simp_all [numValOk, pyNumQ]

/-- Formatting a number with the .4f spec succeeds. -/
theorem pyFormatFixed4_num (v : PyVal) (h : numValOk v = true) :
    ∃ s, pyFormatFixed4 v = .ok s := by
  cases v with
  | bool b => exact ⟨_, rfl⟩
  | int n => exact ⟨_, rfl⟩
  | float q => exact ⟨_, rfl⟩
  | none => simp [numValOk] at h
  | str s => simp [numValOk] at h
  | list xs => simp [numValOk] at h
  | dict kvs => simp [numValOk] at h

/-- Comparing two numbers with the Python greater-than succeeds. -/
theorem pyGtB_num (a b : PyVal) (ha : (pyNumQ a).isSome = true)
    (hb : (pyNumQ b).isSome = true) : ∃ g, pyGtB a b = .ok g := by
  unfold pyGtB
  cases hqa : pyNumQ a with
  | none => rw [hqa] at ha; simp at ha
  | some x =>
      cases hqb : pyNumQ b with
      | none => rw [hqb] at hb; simp at hb
      | some y => exact ⟨_, rfl⟩

/-- Well-formed field access: the similarity value of a well-formed
candidate dictionary is a number. -/
theorem wf_sim_num (kvs : List (PyStr × PyVal))
    (h : wellFormedChunk (.dict kvs) = true) :
    numValOk ((dictGet kvs "similarity".toList).getD (.float 0)) = true := by
  unfold wellFormedChunk at h
  simp only [Bool.and_eq_true] at h
  obtain ⟨⟨⟨⟨hsim, _⟩, _⟩, _⟩, _⟩ := h
  cases hg : dictGet kvs "similarity".toList with
  | none => rfl
  | some v =>
      rw [hg] at hsim
      exact hsim

/-- Well-formed field access: a string-like field of a well-formed
candidate dictionary defaults to a None-or-string value. -/
theorem wf_str_field (kvs : List (PyStr × PyVal)) (k : PyStr)
    (h : strOptFieldOk (dictGet kvs k) = true) :
    strValOk ((dictGet kvs k).getD PyVal.none) = true := by
  cases hg : dictGet kvs k with
  | none => rfl
  | some v =>
      rw [hg] at h
      exact h

/-- Building the phase-1 block of a well-formed candidate succeeds. -/
theorem chunkBlock_wf (i : Nat) (c : PyVal) (h : wellFormedChunk c = true) :
    ∃ b, chunkBlock i c = .ok b := by
  cases c with
  | dict kvs =>
      have h2 := h
      unfold wellFormedChunk at h2
      simp only [Bool.and_eq_true] at h2
      obtain ⟨⟨⟨⟨hsim, htext⟩, htitle⟩, hocr⟩, hnid⟩ := h2
      obtain ⟨s, hs⟩ := pyOr_empty_str_of_strValOk _ (wf_str_field kvs _ htext)
      obtain ⟨sc, hsc⟩ := pyFormatFixed4_num _ (wf_sim_num kvs h)
      simp only [chunkBlock, pyGet, except_ok_bind]
      rw [hs, hsc]
      exact ⟨_, rfl⟩
  | none => simp [wellFormedChunk] at h
  | bool b => simp [wellFormedChunk] at h
  | int n => simp [wellFormedChunk] at h
  | float q => simp [wellFormedChunk] at h
  | str s => simp [wellFormedChunk] at h
  | list xs => simp [wellFormedChunk] at h

/-- Building the phase-1 blocks of well-formed candidates succeeds. -/
theorem chunkBlocksFrom_wf : ∀ (cs : List PyVal) (i : Nat),
    (∀ c ∈ cs, wellFormedChunk c = true) →
    ∃ bs, chunkBlocksFrom i cs = .ok bs := by
  intro cs
  induction cs with
  | nil => intro i _; exact ⟨[], rfl⟩
  | cons c cs ih =>
      intro i h
      obtain ⟨b, hb⟩ := chunkBlock_wf i c (h c (List.mem_cons_self c cs))
      obtain ⟨bs, hbs⟩ := ih (i + 1) (fun u hu => h u (List.mem_cons_of_mem c hu))
      refine ⟨b :: bs, ?_⟩
      simp only [chunkBlocksFrom]
      rw [hb, except_ok_bind, hbs, except_ok_bind]

/-- Invariant on grouped notice entries: numeric best similarity and a
string OCR value. -/
def noticeInfoOk (kv : PyVal × NoticeInfo) : Prop :=
  (pyNumQ kv.2.max_similarity).isSome = true ∧ ∃ s, kv.2.ocr = .str s

/-- Grouping well-formed candidates never raises and keeps the entry
invariant. -/
theorem groupNotices_wf : ∀ (cs : List PyVal) (acc : List (PyVal × NoticeInfo)),
    (∀ c ∈ cs, wellFormedChunk c = true) →
    (∀ kv ∈ acc, noticeInfoOk kv) →
    ∃ out, groupNotices cs acc = .ok out ∧ ∀ kv ∈ out, noticeInfoOk kv := by
  intro cs
  induction cs with
  | nil => intro acc _ hacc; exact ⟨acc, rfl, hacc⟩
  | cons c cs ih =>
      intro acc h hacc
      have hwf := h c (List.mem_cons_self c cs)
      cases c with
      | dict kvs =>
          have h2 := hwf
          unfold wellFormedChunk at h2
          simp only [Bool.and_eq_true] at h2
          obtain ⟨⟨⟨⟨hsim, htext⟩, htitle⟩, hocr⟩, hnid⟩ := h2
          obtain ⟨sn, hsn⟩ := pyOr_str_of_strValOk _ "UNKNOWN".toList (wf_str_field kvs _ hnid)
          obtain ⟨so, hso⟩ := pyOr_empty_str_of_strValOk _ (wf_str_field kvs _ hocr)
          simp only [groupNotices, pyGet, except_ok_bind]
          rw [hsn]
          rw [if_neg (by simp [pyHashable])]
          cases hfind : (acc.find? (fun kv => pyValEqb kv.1 (PyVal.str sn))) with
          | none =>
              refine ih _ (fun u hu => h u (List.mem_cons_of_mem _ hu)) ?_
              intro kv hkv
              rcases List.mem_append.mp hkv with hkv2 | hkv2
              · exact hacc kv hkv2
              · rw [List.mem_singleton] at hkv2
                subst hkv2
                refine ⟨pyNumQ_isSome_of_numValOk _ (wf_sim_num kvs hwf), ?_⟩
                exact ⟨so, by rw [hso]⟩
          | some kv =>
              have hkvacc := hacc kv (List.mem_of_find?_eq_some hfind)
              obtain ⟨g, hg⟩ := pyGtB_num ((dictGet kvs "similarity".toList).getD (.float 0))
                kv.2.max_similarity
                (pyNumQ_isSome_of_numValOk _ (wf_sim_num kvs hwf)) hkvacc.1
              show ∃ out,
                ((Except.ok ((dictGet kvs "similarity".toList).getD (PyVal.float 0)) :
                    Except PyStr PyVal) >>= fun simv =>
                  pyGtB simv kv.2.max_similarity >>= fun gt =>
                  groupNotices cs
                    (if gt then
                      acc.map (fun kv2 =>
                        if pyValEqb kv2.1 (PyVal.str sn) then
                          (kv2.1, { kv2.2 with max_similarity := simv })
                        else kv2)
                    else acc)) = Except.ok out ∧ ∀ kv2 ∈ out, noticeInfoOk kv2
              rw [except_ok_bind, hg, except_ok_bind]
              cases g with
              | true =>
                  rw [if_pos rfl]
                  refine ih _ (fun u hu => h u (List.mem_cons_of_mem _ hu)) ?_
                  intro kv2 hkv2
                  rw [List.mem_map] at hkv2
                  obtain ⟨kv3, hkv3, rfl⟩ := hkv2
                  by_cases he : pyValEqb kv3.1 (PyVal.str sn) = true
                  · rw [if_pos he]
                    exact ⟨pyNumQ_isSome_of_numValOk _ (wf_sim_num kvs hwf),
                      (hacc kv3 hkv3).2⟩
                  · rw [if_neg he]
                    exact hacc kv3 hkv3
              | false =>
                  rw [if_neg (by simp)]
                  exact ih _ (fun u hu => h u (List.mem_cons_of_mem _ hu)) hacc
      | none => simp [wellFormedChunk] at hwf
      | bool b => simp [wellFormedChunk] at hwf
      | int n => simp [wellFormedChunk] at hwf
      | float q => simp [wellFormedChunk] at hwf
      | str s => simp [wellFormedChunk] at hwf
      | list xs => simp [wellFormedChunk] at hwf

/-- Inserting into the descending order keeps exactly the inserted and
old entries. -/
theorem insertNoticeDesc_mem (a : PyVal × NoticeInfo) : ∀ l t,
    t ∈ insertNoticeDesc a l → t = a ∨ t ∈ l := by
  intro l
  induction l with
  | nil =>
      intro t ht
      simp only [insertNoticeDesc, List.mem_singleton] at ht
      exact Or.inl ht
  | cons b bs ih =>
      intro t ht
      unfold insertNoticeDesc at ht
      by_cases hc : (pyNumQ a.2.max_similarity).getD 0 ≤ (pyNumQ b.2.max_similarity).getD 0
      · rw [if_pos hc] at ht
        rcases List.mem_cons.mp ht with rfl | ht2
        · exact Or.inr (List.mem_cons_self t bs)
        · rcases ih t ht2 with h | h
          · exact Or.inl h
          · exact Or.inr (List.mem_cons_of_mem b h)
      · rw [if_neg hc] at ht
        rcases List.mem_cons.mp ht with rfl | ht2
        · exact Or.inl rfl
        · exact Or.inr ht2

/-- Sorting the notices with numeric keys succeeds and yields a subset. -/
theorem sortNoticesByMaxSim_wf (items : List (PyVal × NoticeInfo))
    (h : ∀ kv ∈ items, noticeInfoOk kv) :
    ∃ out, sortNoticesByMaxSim items = .ok out ∧ ∀ kv ∈ out, noticeInfoOk kv := by
  unfold sortNoticesByMaxSim
  rw [if_pos (by
    rw [List.all_eq_true]
    intro kv hkv
    exact (h kv hkv).1)]
  refine ⟨_, rfl, ?_⟩
  intro kv hkv
  have key : ∀ (l acc : List (PyVal × NoticeInfo)) (u : PyVal × NoticeInfo),
      u ∈ l.foldl (fun acc kv => insertNoticeDesc kv acc) acc → u ∈ acc ∨ u ∈ l := by
    intro l
    induction l with
    | nil => intro acc u hu; exact Or.inl hu
    | cons x xs ih =>
        intro acc u hu
        rcases ih (insertNoticeDesc x acc) u hu with h2 | h2
        · rcases insertNoticeDesc_mem x acc u h2 with rfl | h3
          · exact Or.inr (List.mem_cons_self u xs)
          · exact Or.inl h3
        · exact Or.inr (List.mem_cons_of_mem x h2)
  rcases key items [] kv hkv with h2 | h2
  · simp at h2
  · exact h kv h2

/-- The phase-2 loop never raises when every entry has a string OCR
value. -/
theorem ocrLoop_wf (maxCtx trunc : Nat) : ∀ (items : List (PyVal × NoticeInfo))
    (j used : Nat) (blocks : List PyStr),
    (∀ kv ∈ items, ∃ s, kv.2.ocr = .str s) →
    ∃ out, ocrLoop maxCtx trunc j items used blocks = .ok out := by
  intro items
  induction items with
  | nil => intro j used blocks _; exact ⟨blocks, rfl⟩
  | cons kv rest ih =>
      intro j used blocks h
      obtain ⟨s, hs⟩ := h kv (List.mem_cons_self kv rest)
      obtain ⟨s2, hs2⟩ := pyOr_empty_str_of_strValOk kv.2.ocr (by rw [hs]; rfl)
      simp only [ocrLoop]
      rw [hs2]
      by_cases ht : pyTruthy (PyVal.str s2) = true
      · rw [if_neg (by simp [ht])]
        by_cases htr : trunc > 0
        · rw [if_pos htr]
          show ∃ out, (Except.ok (PyVal.str (s2.take trunc)) >>= _) = .ok out
          rw [except_ok_bind]
          by_cases hover : maxCtx < used
              + (noticeBlock j kv.1 kv.2 (PyVal.str (s2.take trunc))).length
          · rw [if_pos hover]
            exact ⟨blocks, rfl⟩
          · rw [if_neg hover]
            exact ih _ _ _ (fun u hu => h u (List.mem_cons_of_mem kv hu))
        · rw [if_neg htr]
          rw [except_ok_bind]
          by_cases hover : maxCtx < used + (noticeBlock j kv.1 kv.2 (PyVal.str s2)).length
          · rw [if_pos hover]
            exact ⟨blocks, rfl⟩
          · rw [if_neg hover]
            exact ih _ _ _ (fun u hu => h u (List.mem_cons_of_mem kv hu))
      · rw [if_pos (by simp [ht])]
        exact ih _ _ _ (fun u hu => h u (List.mem_cons_of_mem kv hu))

/-- Assembling the context of well-formed candidates succeeds. -/
theorem assembleContext_wf (maxCtx trunc : Nat) (sel : List PyVal)
    (h : ∀ c ∈ sel, wellFormedChunk c = true) :
    ∃ ctx, assembleContext maxCtx trunc sel = .ok ctx := by
  obtain ⟨bs, hbs⟩ := chunkBlocksFrom_wf sel 1 h
  obtain ⟨ns, hns, hnok⟩ := groupNotices_wf sel [] h
    (fun kv hkv => absurd hkv (List.not_mem_nil kv))
  obtain ⟨ord, hord, hook⟩ := sortNoticesByMaxSim_wf ns hnok
  obtain ⟨ob, hob⟩ := ocrLoop_wf maxCtx trunc ord 1 (joinSep "\n\n".toList bs).length []
    (fun kv hkv => (hook kv hkv).2)
  refine ⟨if ob.isEmpty then joinSep "\n\n".toList bs
      else joinSep "\n\n".toList bs ++ "\n\n".toList ++ joinSep "\n\n".toList ob, ?_⟩
  unfold assembleContext
  simp only [hbs, except_ok_bind, hns, hord, hob]

/-- Building the full prompt of well-formed candidates succeeds. -/
theorem build_prompt_wf (maxCtx trunc : Nat) (query : PyStr) (sel : List PyVal)
    (h : ∀ c ∈ sel, wellFormedChunk c = true) :
    ∃ p, _build_prompt maxCtx trunc query sel = .ok p := by
  obtain ⟨ctx, hctx⟩ := assembleContext_wf maxCtx trunc sel h
  exact ⟨_, by unfold _build_prompt; rw [hctx]; rfl⟩

/-- Stripping the OCR field only rewrites the notice_ocr entries of a
dictionary. -/
theorem dictGet_stripOcr (kvs : List (PyStr × PyVal)) (k : PyStr) :
    dictGet (kvs.map (fun kv =>
        if kv.1 == "notice_ocr".toList then (kv.1, PyVal.none) else kv)) k
      = if k = "notice_ocr".toList then (dictGet kvs k).map (fun _ => PyVal.none)
        else dictGet kvs k := by
  unfold dictGet
  rw [List.find?_map]
  have hp : ((fun kv : PyStr × PyVal => kv.1 == k) ∘
      (fun kv => if kv.1 == "notice_ocr".toList then (kv.1, PyVal.none) else kv))
      = fun kv : PyStr × PyVal => kv.1 == k := by
    funext kv
    simp only [Function.comp]
    by_cases h : kv.1 == "notice_ocr".toList
    · rw [if_pos h]
    · rw [if_neg h]
  rw [hp]
  cases hf : kvs.find? (fun kv => kv.1 == k) with
  | none => by_cases hk : k = "notice_ocr".toList <;> simp [hk]
  | some kv =>
      have h1 := List.find?_some hf
      have hkey : kv.1 = k := eq_of_beq h1
      by_cases hko : kv.1 == "notice_ocr".toList
      · have hk : k = "notice_ocr".toList := by rw [← hkey]; exact eq_of_beq hko
        simp [hko, hk, hkey]
      · have hk : ¬ k = "notice_ocr".toList := by
          rw [← hkey]
          intro hc
          exact hko (by rw [hc]; decide)
        show some (if (kv.1 == "notice_ocr".toList) = true then (kv.1, PyVal.none) else kv).2
            = if k = "notice_ocr".toList then some PyVal.none else some kv.2
        rw [if_neg hko, if_neg hk]

/-- Stripping the OCR field preserves candidate well-formedness. -/
theorem stripOcr_wf (c : PyVal) (h : wellFormedChunk c = true) :
    wellFormedChunk (stripOcr c) = true := by
  cases c with
  | dict kvs =>
      unfold wellFormedChunk at h
      simp only [Bool.and_eq_true] at h
      obtain ⟨⟨⟨⟨hsim, htext⟩, htitle⟩, hocr⟩, hnid⟩ := h
      unfold stripOcr wellFormedChunk
      simp only [Bool.and_eq_true, dictGet_stripOcr]
      refine ⟨⟨⟨⟨?_, ?_⟩, ?_⟩, ?_⟩, ?_⟩
      · rw [if_neg (by decide)]; exact hsim
      · rw [if_neg (by decide)]; exact htext
      · rw [if_neg (by decide)]; exact htitle
      · simp only [if_true]
        cases dictGet kvs "notice_ocr".toList <;> rfl
      · rw [if_neg (by decide)]; exact hnid
  | none => simp [wellFormedChunk] at h
  | bool b => simp [wellFormedChunk] at h
  | int n => simp [wellFormedChunk] at h
  | float q => simp [wellFormedChunk] at h
  | str s => simp [wellFormedChunk] at h
  | list xs => simp [wellFormedChunk] at h

/-- Stripping the OCR fields of a well-formed selection keeps every
candidate well formed. -/
theorem stripOcr_map_wf (sel : List PyVal) (h : ∀ c ∈ sel, wellFormedChunk c = true) :
    ∀ c ∈ sel.map stripOcr, wellFormedChunk c = true := by
  intro c hc
  rw [List.mem_map] at hc
  obtain ⟨u, hu, rfl⟩ := hc
  exact stripOcr_wf u (h u hu)

/-- The LLM stage of the orchestrator never lets an exception escape when
the selected candidates are well formed. -/
theorem orchestrateLLM_wf (maxCtx trunc numKeys idx0 : Nat)
    (f1 f2 : Nat → Except PyStr PyStr) (query : PyStr) (selected : List PyVal)
    (h : ∀ c ∈ selected, wellFormedChunk c = true) :
    (orchestrateLLM maxCtx trunc numKeys idx0 f1 f2 query selected).isOk = true := by
  unfold orchestrateLLM
  split
  · rfl
  next e heq =>
      by_cases hq : isQuotaMsgOrch (pyLower e) = true
      · rw [if_pos hq]; rfl
      · rw [if_neg hq]
        by_cases hc : isCtxMsgOrch (pyLower e) = true
        · rw [if_pos hc]
          obtain ⟨p2, hp2⟩ := build_prompt_wf maxCtx trunc query (selected.map stripOcr)
            (stripOcr_map_wf selected h)
          simp only [hp2, except_ok_bind]
          split <;> rfl
        · rw [if_neg hc]; rfl

/-- C1 amended: when the retriever outcome, if successful, carries a
well-formed chunks payload (each candidate a dictionary whose similarity
field is numeric and whose text-like fields are None or strings), the
orchestrator search_and_generate returns an {answer, sources} result for
every query, every credential pool and every behaviour of the two LLM
invocation oracles, and never propagates an exception to its caller.
The unconditional claim is refuted by search_and_generate_counterexample:
a malformed candidate makes float() raise an uncaught ValueError inside
_select_chunks. -/
theorem search_and_generate_total (maxCtx trunc numKeys idx0 : Nat)
    (retr : Except PyStr PyVal) (f1 f2 : Nat → Except PyStr PyStr)
    (query : PyStr) (top_k : Int)
    (h : ∀ data, retr = .ok data → wellFormedData data = true) :
    (search_and_generate maxCtx trunc numKeys idx0 retr f1 f2 query top_k).isOk = true := by
  cases retr with
  | error e => rfl
  | ok data =>
      have hd := h data rfl
      simp only [search_and_generate]
      by_cases ht : pyTruthy (chunksOf data) = true
      · rw [if_neg (by simp [ht])]
        cases data with
        | dict kvs =>
            simp only [chunksOf] at ht ⊢
            have hdm : (match dictGet kvs "chunks".toList with
                | Option.none => true
                | some (PyVal.list cs) => cs.all wellFormedChunk
                | some v => !pyTruthy v) = true := hd
            cases hg : dictGet kvs "chunks".toList with
            | none =>
                rw [hg] at ht
                simp [pyTruthy] at ht
            | some v =>
                rw [hg] at hdm ht
                cases v with
                | list cs =>
                    have hall : cs.all wellFormedChunk = true := hdm
                    rw [List.all_eq_true] at hall
                    simp only [Option.getD, pyIter, except_ok_bind]
                    obtain ⟨sel, hsel, hselmem⟩ :=
                      select_chunks_wf maxCtx cs top_k (normalize_query query)
                        (fun c hc => hall c hc)
                    simp only [hsel, except_ok_bind]
                    have hwf : ∀ c ∈ sel, wellFormedChunk c = true :=
                      fun c hc => hall c (hselmem c hc)
                    by_cases hse : sel.isEmpty = true
                    · rw [if_pos hse]; rfl
                    · rw [if_neg hse]
                      obtain ⟨p, hp⟩ := build_prompt_wf maxCtx trunc query sel hwf
                      simp only [hp, except_ok_bind]
                      exact orchestrateLLM_wf maxCtx trunc numKeys idx0 f1 f2 query sel hwf
                | none =>
                    have ht2 : pyTruthy PyVal.none = true := ht
                    simp [pyTruthy] at ht2
                | bool b =>
                    have hd2 : (!pyTruthy (PyVal.bool b)) = true := hdm
                    have ht2 : pyTruthy (PyVal.bool b) = true := ht
                    rw [ht2] at hd2
                    simp at hd2
                | int n =>
                    have hd2 : (!pyTruthy (PyVal.int n)) = true := hdm
                    have ht2 : pyTruthy (PyVal.int n) = true := ht
                    rw [ht2] at hd2
                    simp at hd2
                | float q =>
                    have hd2 : (!pyTruthy (PyVal.float q)) = true := hdm
                    have ht2 : pyTruthy (PyVal.float q) = true := ht
                    rw [ht2] at hd2
                    simp at hd2
                | str s =>
                    have hd2 : (!pyTruthy (PyVal.str s)) = true := hdm
                    have ht2 : pyTruthy (PyVal.str s) = true := ht
                    rw [ht2] at hd2
                    simp at hd2
                | dict kvs2 =>
                    have hd2 : (!pyTruthy (PyVal.dict kvs2)) = true := hdm
                    have ht2 : pyTruthy (PyVal.dict kvs2) = true := ht
                    rw [ht2] at hd2
                    simp at hd2
        | none => simp [chunksOf, pyTruthy] at ht
        | bool b => simp [chunksOf, pyTruthy] at ht
        | int n => simp [chunksOf, pyTruthy] at ht
        | float q => simp [chunksOf, pyTruthy] at ht
        | str s => simp [chunksOf, pyTruthy] at ht
        | list xs => simp [chunksOf, pyTruthy] at ht
      · rw [if_pos (by simp [ht])]
        rfl

/-- Retriever payload whose single candidate carries the non-numeric
similarity string "abc", used by the C1 counterexample. -/
def c1data : PyVal :=
  .dict [("chunks".toList,
    .list [.dict [("similarity".toList, .str "abc".toList),
                  ("chunk_text".toList, .str "hello".toList)]])]

/-- C1 counterexample: a candidate whose similarity field is the string
"abc" makes float() raise an uncaught ValueError inside _select_chunks
(no try/except protects the selection stage), so search_and_generate
propagates the exception instead of returning an {answer, sources}
result. -/
theorem search_and_generate_counterexample :
    (search_and_generate 100 5 1 0 (.ok c1data)
      (fun _ => .ok "ok".toList) (fun _ => .ok "ok".toList)
      "q".toList 5).isOk = false := by
  with_unfolding_all decide

/-- Well-formed retriever payload used by the C1 witness. -/
def c1wdata : PyVal :=
  .dict [("chunks".toList,
    .list [.dict [("similarity".toList, .float (9/10)),
                  ("chunk_text".toList, .str "hello world".toList),
                  ("notice_id".toList, .str "N1".toList),
                  ("notice_title".toList, .str "Exam".toList),
                  ("notice_ocr".toList, .str "ocr text".toList)]])]

set_option maxRecDepth 8000 in
/-- C1 witness: on a concrete well-formed payload the orchestrator
returns a result even when every LLM invocation raises. -/
theorem search_and_generate_total_witness :
    (∀ data, (Except.ok c1wdata : Except PyStr PyVal) = Except.ok data →
      wellFormedData data = true) ∧
    (search_and_generate 1000 5 1 0 (.ok c1wdata)
      (fun _ => .error "boom".toList) (fun _ => .error "boom".toList)
      "when is the exam".toList 5).isOk = true :=
  ⟨fun _ hd => by cases hd; with_unfolding_all decide,
   search_and_generate_total 1000 5 1 0 (.ok c1wdata)
     (fun _ => .error "boom".toList) (fun _ => .error "boom".toList)
     "when is the exam".toList 5
     (fun _ hd => by cases hd; with_unfolding_all decide)⟩
